import Mathlib

/-!
# Verification of the WHO CSV extraction scripts

A shallow embedding, in Lean 4, of the Python scripts in this repository
(`fix_disaggregation_extraction.py`, `system_wide_verification.py`,
`extract_all_countries_csv.py`, `sanitize_all_countries_csv.py`,
`safe_countries_expansion.py`, `parse_who_data.py`,
`test_health_score_distribution.py`).

Modelling conventions:
* Python strings are `List Char` (`Str`).  The CSV file is modelled as the
  list of its parsed records (`Row`), since every script reads it through
  `csv.DictReader` into the same five fields.
* Python `float` values are modelled by `PyFloat`: an exact rational for the
  finite case, plus infinities and NaN (which `float(...)` string conversion
  can produce, e.g. `float("inf")`).  Decimal-to-binary rounding is not
  modelled: finite values are kept as exact rationals.
* Python dicts are association lists in insertion order (`aupdate` keeps an
  existing key in place and appends a new key at the end), matching the
  insertion-order semantics the scripts rely on
  (`list(indicators.keys())[0]`, iteration order of `.items()`).
* `float(s)` string parsing is modelled by `pyFloatOfStr` covering the ASCII
  grammar CPython accepts: optional whitespace, sign, digits with single
  underscores between digits, optional fraction and exponent, and the
  case-insensitive spellings of infinity and NaN.
-/

namespace WHOScripts

abbrev Str := List Char

/-! ## Basic string machinery (Python substring / replace semantics) -/

/-- First occurrence split: `splitFirst pat l = some (pre, suf)` iff `pat`
occurs in `l`, where `l = pre ++ pat ++ suf` and the occurrence is leftmost. -/
def splitFirst (pat : Str) : Str → Option (Str × Str)
  | [] => if pat = [] then some ([], []) else none
  | c :: rest =>
    if pat.isPrefixOf (c :: rest) then some ([], (c :: rest).drop pat.length)
    else (splitFirst pat rest).map (fun pr => (c :: pr.1, pr.2))

/-- Python `pat in s` (substring containment). -/
def pyContains (pat s : Str) : Bool := (splitFirst pat s).isSome

/-- Python `s.replace(pat, new)` for nonempty `pat` (all the patterns the
scripts replace are nonempty): replaces every non-overlapping occurrence,
scanning left to right. -/
def pyReplace (pat new : Str) : Str → Str
  | [] => []
  | c :: rest =>
    if h : pat ≠ [] ∧ pat.isPrefixOf (c :: rest) then
      new ++ pyReplace pat new ((c :: rest).drop pat.length)
    else
      c :: pyReplace pat new rest
termination_by l => l.length
decreasing_by
  · simp only [List.length_drop, List.length_cons]
    have : 1 ≤ pat.length := List.length_pos.mpr h.1
    omega
  · simp

/-- Number of non-overlapping occurrences of `pat`, scanning left to right
(the notion of occurrence used by `str.replace`). -/
def countOccur (pat : Str) : Str → Nat
  | [] => 0
  | c :: rest =>
    if h : pat ≠ [] ∧ pat.isPrefixOf (c :: rest) then
      1 + countOccur pat ((c :: rest).drop pat.length)
    else
      countOccur pat rest
termination_by l => l.length
decreasing_by
  · simp only [List.length_drop, List.length_cons]
    have : 1 ≤ pat.length := List.length_pos.mpr h.1
    omega
  · simp

/-- ASCII whitespace stripped by `str.strip()` / skipped by `float(...)`. -/
def isPySpace (c : Char) : Bool :=
  c = ' ' || c = '\t' || c = '\n' || c = '\r' || c = '\x0b' || c = '\x0c'

/-- Python `s.strip()` (ASCII whitespace). -/
def pyStrip (s : Str) : Str :=
  ((s.dropWhile isPySpace).reverse.dropWhile isPySpace).reverse

/-- Python `s.lower()` (ASCII case folding suffices for the scripts). -/
def toLowerStr (s : Str) : Str := s.map Char.toLower

/-! ## Python float values and `float(string)` parsing -/

/-- A Python float, with finite values kept as exact rationals. -/
inductive PyFloat where
  | finite : ℚ → PyFloat
  | inf : Bool → PyFloat   -- `true` means negative infinity
  | nan : PyFloat
deriving DecidableEq

/-- Optional sign prefix: returns (isNegative, rest). -/
def parseSign : Str → Bool × Str
  | '+' :: r => (false, r)
  | '-' :: r => (true, r)
  | s => (false, s)

/-- Continue lexing a digit group after at least one digit has been read;
single underscores are allowed between digits (CPython's grammar). -/
def lexDigitsMore : Str → Str × Str
  | [] => ([], [])
  | [c] => if c.isDigit then ([c], []) else ([], [c])
  | c :: d :: rest =>
    if c.isDigit then
      let p := lexDigitsMore (d :: rest)
      (c :: p.1, p.2)
    else if c = '_' then
      if d.isDigit then
        let p := lexDigitsMore rest
        (d :: p.1, p.2)
      else ([], c :: d :: rest)
    else ([], c :: d :: rest)

/-- Lex a digit group (must start with a digit; `_` only between digits). -/
def lexDigitsU : Str → Str × Str
  | [] => ([], [])
  | c :: rest =>
    if c.isDigit then
      let p := lexDigitsMore rest
      (c :: p.1, p.2)
    else ([], c :: rest)

/-- Digits to a natural number. -/
def digitsToNat (ds : Str) : Nat :=
  ds.foldl (fun a c => 10 * a + (c.toNat - '0'.toNat)) 0

/-- Mantissa: `digits [. digits]` with at least one digit overall.
Returns the value and the unconsumed rest. -/
def parseMantissa (s : Str) : Option (ℚ × Str) :=
  let ip := lexDigitsU s
  match h : ip.2 with
  | '.' :: r2 =>
    let fp := lexDigitsU r2
    if ip.1 = [] ∧ fp.1 = [] then none
    else some ((digitsToNat ip.1 : ℚ) + (digitsToNat fp.1 : ℚ) / (10 : ℚ) ^ fp.1.length, fp.2)
  | _ => if ip.1 = [] then none else some ((digitsToNat ip.1 : ℚ), ip.2)

/-- Exponent tail (after the `e`/`E`): sign and digit group consuming
everything that remains. -/
def parseExpTail (r : Str) : Option Int :=
  let sg := parseSign r
  let ds := lexDigitsU sg.2
  if ds.1 = [] ∨ ds.2 ≠ [] then none
  else some (if sg.1 then -(digitsToNat ds.1 : Int) else (digitsToNat ds.1 : Int))

/-- Model of CPython `float(s)` on ASCII input: strip whitespace, optional
sign, then an infinity/NaN spelling or a decimal mantissa with optional
exponent.  Finite results are exact rationals (no binary rounding). -/
def pyFloatOfStr (s : Str) : Option PyFloat :=
  let t := pyStrip s
  let sg := parseSign t
  let low := toLowerStr sg.2
  if low = "inf".data ∨ low = "infinity".data then some (.inf sg.1)
  else if low = "nan".data then some .nan
  else
    match parseMantissa sg.2 with
    | none => none
    | some (m, rest) =>
      match rest with
      | [] => some (.finite (if sg.1 then -m else m))
      | 'e' :: r2 =>
        match parseExpTail r2 with
        | none => none
        | some e =>
          let v := m * (10 : ℚ) ^ e
          some (.finite (if sg.1 then -v else v))
      | 'E' :: r2 =>
        match parseExpTail r2 with
        | none => none
        | some e =>
          let v := m * (10 : ℚ) ^ e
          some (.finite (if sg.1 then -v else v))
      | _ => none

/-! ## The data model: CSV records and Python dicts -/

/-- One record of the WHO CSV, as read by `csv.DictReader` (only the five
fields the scripts use). -/
structure Row where
  location : Str
  locationCode : Str
  indicatorName : Str
  disaggregation : Str
  numericValue : Str
deriving DecidableEq

/-- The enumerated set of regional aggregates skipped by the scripts. -/
def regionalAggregates : List Str :=
  ["Global", "African Region", "Eastern Mediterranean Region", "European Region",
   "Region of the Americas", "South-East Asia Region", "Western Pacific Region"].map String.data

/-- Python `s.isalpha()` (ASCII letters; the CSV codes are ASCII). -/
def pyIsAlpha (s : Str) : Bool := !s.isEmpty && s.all (fun c => c.isAlpha)

/-- `len(location_code) == 3 and location_code.isalpha()`. -/
def passesCodeGate (code : Str) : Bool := code.length == 3 && pyIsAlpha code

/-- `numeric_value and numeric_value.strip() and numeric_value != 'NO DATA'`. -/
def passesValueGate (v : Str) : Bool :=
  !v.isEmpty && !(pyStrip v).isEmpty && !(v == "NO DATA".data)

/-- The value a record contributes, if any: the truthiness gate followed by
`float(numeric_value)` with `ValueError` skipped. -/
def contributedValue (v : Str) : Option PyFloat :=
  if passesValueGate v then pyFloatOfStr v else none

/-- `numeric_value and str(numeric_value).strip() != '' and
str(numeric_value).strip().lower() != 'nan'` — the distinct value gate of
`extract_authentic_csv_data` in `zero_discrepancy_replacement.py` (lines
236-245), which checks for the `'nan'` spelling instead of `'NO DATA'`. -/
def authenticValueGate (v : Str) : Bool :=
  !v.isEmpty && !(pyStrip v).isEmpty && !(toLowerStr (pyStrip v) == "nan".data)

/-- The value a record contributes in `extract_authentic_csv_data`: its gate
followed by `float(numeric_value)` with `ValueError` skipped. -/
def authenticContributedValue (v : Str) : Option PyFloat :=
  if authenticValueGate v then pyFloatOfStr v else none

/-- Insertion-ordered association list (a Python dict). -/
abbrev AList (α : Type) := List (Str × α)

/-- Dict lookup (first binding; keys are unique in all tables built here). -/
def alookup {α : Type} (l : AList α) (k : Str) : Option α :=
  (l.find? (fun p => p.1 == k)).map (·.2)

/-- Dict assignment `d[k] = v`: an existing key keeps its position, a new key
is appended at the end (CPython insertion-order semantics). -/
def aupdate {α : Type} (l : AList α) (k : Str) (v : α) : AList α :=
  match l with
  | [] => [(k, v)]
  | (k', v') :: rest => if k' == k then (k', v) :: rest else (k', v') :: aupdate rest k v

/-! ## Disaggregation priority (`fix_disaggregation_extraction.py` lines 17-52,
identical in `system_wide_verification.py` lines 15-52) -/

/-- The fixed priority list, highest priority first. -/
def priorityOrder : List Str :=
  ["NA", "BTSX", "SEX_BTSX", "TOTAL", "ALL", ""].map String.data

/-- The scoring loop:
`for i, p in enumerate(priority_order): if p in d or d == p: score = i; break`,
defaulting to `len(priority_order)`. -/
def prioScoreGo (d : Str) : List Str → Nat → Nat
  | [], _ => priorityOrder.length
  | p :: ps, i => if pyContains p d || d == p then i else prioScoreGo d ps (i + 1)

/-- Priority score of a disaggregation value. -/
def prioScore (d : Str) : Nat := prioScoreGo d priorityOrder 0

/-- The per-(country, indicator) cell stored by the priority extractions. -/
structure AggEntry where
  value : PyFloat
  priority : Nat
  disaggregation : Str
  location : Str
deriving DecidableEq

/-- Lines 55-61: `if indicator not in country_data[location_code] or
priority_score < country_data[location_code][indicator]['priority']: ...` —
store the entry iff the cell is empty or strictly improved (the defaultdict
creates the country on first store; an untouched cell leaves the table
unchanged). -/
def aggUpsert (ct : AList (AList AggEntry)) (code ind : Str) (e : AggEntry) :
    AList (AList AggEntry) :=
  match alookup ((alookup ct code).getD []) ind with
  | none => aupdate ct code (aupdate ((alookup ct code).getD []) ind e)
  | some e₀ =>
    if e.priority < e₀.priority then
      aupdate ct code (aupdate ((alookup ct code).getD []) ind e)
    else ct

/-- Processing of one CSV row by `extract_correct_aggregates`
(= `extract_all_csv_data`): regional-aggregate skip, 3-letter-code gate,
value gate, `float` parse, then store the record iff the indicator is new for
the country or the new priority score is strictly smaller. -/
def aggStep (ct : AList (AList AggEntry)) (r : Row) : AList (AList AggEntry) :=
  if r.location ∈ regionalAggregates then ct
  else if passesCodeGate r.locationCode then
    if passesValueGate r.numericValue then
      match pyFloatOfStr r.numericValue with
      | none => ct
      | some v =>
        aggUpsert ct r.locationCode r.indicatorName
          ⟨v, prioScore r.disaggregation, r.disaggregation, r.location⟩
    else ct
  else ct

/-- The in-memory `country_data` table after the CSV loop. -/
def aggTable (rows : List Row) : AList (AList AggEntry) := rows.foldl aggStep []

/-- A `{name, indicators}` country record of the final output. -/
structure CountryOut where
  name : Str
  indicators : List (Str × PyFloat)
deriving DecidableEq

/-- `{'name': indicators[list(indicators.keys())[0]]['location'],
'indicators': {i: e['value'] ...}}` (the empty case cannot occur under the
positive threshold). -/
def aggCountryOut (inner : AList AggEntry) : CountryOut :=
  ⟨(match inner with | [] => [] | e :: _ => e.2.location),
   inner.map (fun q => (q.1, q.2.value))⟩

/-- The `final_data` filter keeping countries with at least `t` indicators. -/
def finalizeAgg (t : Nat) (ct : AList (AList AggEntry)) : AList CountryOut :=
  ct.filterMap (fun p => if t ≤ p.2.length then some (p.1, aggCountryOut p.2) else none)

/-- `extract_correct_aggregates` of `fix_disaggregation_extraction.py`
(CSV file abstracted to its parsed rows; threshold 15 at line 72). -/
def extract_correct_aggregates (rows : List Row) : AList CountryOut :=
  finalizeAgg 15 (aggTable rows)

/-- `extract_all_csv_data` of `system_wide_verification.py` (lines 14-63 are
identical to `extract_correct_aggregates`; threshold 10 at line 72). -/
def extract_all_csv_data (rows : List Row) : AList CountryOut :=
  finalizeAgg 10 (aggTable rows)

/-! ## `extract_all_countries_csv.py` (no disaggregation priority: last
record wins; a country entry is created by its first non-regional,
valid-code record, which fixes the name) -/

/-- `if location_code not in country_data: country_data[location_code] =
{'name': ..., 'indicators': {}}` — create the country entry (at the end of
the dict) if absent. -/
def ensureCountry (cd : AList CountryOut) (code name : Str) : AList CountryOut :=
  match alookup cd code with
  | some _ => cd
  | none => cd ++ [(code, ⟨name, []⟩)]

/-- `country_data[location_code]['indicators'][indicator] = value` (the last
record for an indicator wins; the name stays as created). -/
def addIndicator (cd : AList CountryOut) (code ind : Str) (v : PyFloat) : AList CountryOut :=
  match alookup cd code with
  | some co => aupdate cd code ⟨co.name, aupdate co.indicators ind v⟩
  | none => cd

/-- One row of the loop of `extract_all_countries_csv_data` (the
`country_names`, `csv_available` and `countries_found` side tables are not
modelled; they do not feed the generated mapping). -/
def allStep (cd : AList CountryOut) (r : Row) : AList CountryOut :=
  if r.location ∈ regionalAggregates then cd
  else if passesCodeGate r.locationCode then
    if passesValueGate r.numericValue then
      match pyFloatOfStr r.numericValue with
      | none => ensureCountry cd r.locationCode r.location
      | some v =>
        addIndicator (ensureCountry cd r.locationCode r.location)
          r.locationCode r.indicatorName v
    else ensureCountry cd r.locationCode r.location
  else cd

/-- The `country_data` table returned by `extract_all_countries_csv_data`. -/
def extract_all_countries_csv_data (rows : List Row) : AList CountryOut :=
  rows.foldl allStep []

/-- The `substantial_countries` dict comprehension
`{code: data for ... if len(data['indicators']) >= t}`. -/
def substantialFilter (t : Nat) (cd : AList CountryOut) : AList CountryOut :=
  cd.filter (fun p => t ≤ p.2.indicators.length)

/-- The mapping actually emitted by `generate_all_countries_replacement`
(threshold 10 at lines 79-81 of `extract_all_countries_csv.py`). -/
def generateAllSubstantial (rows : List Row) : AList CountryOut :=
  substantialFilter 10 (extract_all_countries_csv_data rows)

/-! ## `sanitize_all_countries_csv.py` -/

/-- The `replacements` dict of `sanitize_country_name`, in dict order (the
source literal repeats the keys é, í, ó, ú with identical values; a Python
dict literal keeps the first position and the last—equal—value). -/
def replacementTable : List (Char × Char) :=
  [('ô', 'o'), ('é', 'e'), ('í', 'i'), ('ó', 'o'), ('ú', 'u'), ('ñ', 'n'),
   ('ç', 'c'), ('à', 'a'), ('è', 'e'), ('ì', 'i'), ('ò', 'o'), ('ù', 'u'),
   ('á', 'a'), ('ý', 'y'), ('ā', 'a'), ('ē', 'e'), ('ī', 'i'), ('ō', 'o'),
   ('ū', 'u'), ('ă', 'a'), ('ĕ', 'e'), ('ĭ', 'i'), ('ŏ', 'o'), ('ŭ', 'u')]

/-- `sanitize_country_name`: one `str.replace` per table entry, in order. -/
def sanitize_country_name (s : Str) : Str :=
  replacementTable.foldl (fun acc kv => pyReplace [kv.1] [kv.2] acc) s

/-- Character-level view of the replacement chain: the image of one character
under the successive substitutions (used to reason about
`sanitize_country_name`, which applies them string-wide). -/
def sanitizeChar (c : Char) : Char :=
  replacementTable.foldl (fun a kv => if a = kv.1 then kv.2 else a) c

/-- One row of the loop of `extract_all_sanitized_countries`: as `allStep`
but the stored country name is sanitized. -/
def sanStep (cd : AList CountryOut) (r : Row) : AList CountryOut :=
  if r.location ∈ regionalAggregates then cd
  else if passesCodeGate r.locationCode then
    if passesValueGate r.numericValue then
      match pyFloatOfStr r.numericValue with
      | none => ensureCountry cd r.locationCode (sanitize_country_name r.location)
      | some v =>
        addIndicator (ensureCountry cd r.locationCode (sanitize_country_name r.location))
          r.locationCode r.indicatorName v
    else ensureCountry cd r.locationCode (sanitize_country_name r.location)
  else cd

/-- `extract_all_sanitized_countries` (threshold 10 at lines 94-96). -/
def extract_all_sanitized_countries (rows : List Row) : AList CountryOut :=
  substantialFilter 10 (rows.foldl sanStep [])

/-! ## `safe_countries_expansion.py` -/

/-- The `problematic_names` literal (the first entry is the mojibake spelling
present in the source file). -/
def problematicNames : List Str :=
  ["CÃ´te d'Ivoire", "Democratic People's Republic of Korea",
   "Lao People's Democratic Republic", "China, Hong Kong SAR",
   "China, Macao SAR"].map String.data

/-- One row of the loop of `extract_safe_countries_data`: skip problematic
names, then behave exactly like `extract_all_countries_csv_data`'s loop. -/
def safeStep (cd : AList CountryOut) (r : Row) : AList CountryOut :=
  if r.location ∈ problematicNames then cd else allStep cd r

/-- The pre-threshold table of `extract_safe_countries_data`. -/
def safeTable (rows : List Row) : AList CountryOut := rows.foldl safeStep []

/-- `extract_safe_countries_data` (threshold 30 at lines 66-67). -/
def extract_safe_countries_data (rows : List Row) : AList CountryOut :=
  substantialFilter 30 (safeTable rows)

/-! ## `parse_who_data.py` -/

/-- The region codes skipped by `parse_who_csv` (a *code* list, unlike the
location-name list used by the other scripts). -/
def regionCodes : List Str :=
  ["AFR", "AMR", "EMR", "EUR", "SEAR", "WPR", "GLOBAL"].map String.data

/-- One row of the loop of `parse_who_csv`: fields are stripped; records are
skipped when the code is in `regionCodes` or is not three alphabetic
characters; `float(...)` failures are skipped; name and indicator values are
overwritten by later records (last record wins). -/
def parseWhoStep (cd : AList CountryOut) (r : Row) : AList CountryOut :=
  let indicator := pyStrip r.indicatorName
  let location := pyStrip r.location
  let code := pyStrip r.locationCode
  if code ∈ regionCodes then cd
  else if !(passesCodeGate code) then cd
  else
    match pyFloatOfStr r.numericValue with
    | none => cd
    | some v =>
      match alookup cd code with
      | some co => aupdate cd code ⟨location, aupdate co.indicators indicator v⟩
      | none => cd ++ [(code, ⟨location, [(indicator, v)]⟩)]

/-- The `countries_data` mapping returned by `parse_who_csv` (the sorted
indicator list it also returns is not needed by any claim). -/
def parse_who_csv (rows : List Row) : AList CountryOut :=
  rows.foldl parseWhoStep []

/-! ## `system_wide_verification.py`: the comparison core
(`perform_system_wide_verification`, lines 150-222; the two mappings it
compares are its inputs here, since in the script they come from the two
files) -/

/-- IEEE-style subtraction on `PyFloat` (same-signed infinities give NaN). -/
def pySub : PyFloat → PyFloat → PyFloat
  | .nan, _ => .nan
  | _, .nan => .nan
  | .finite a, .finite b => .finite (a - b)
  | .finite _, .inf s => .inf (!s)
  | .inf s, .finite _ => .inf s
  | .inf s₁, .inf s₂ => if s₁ = s₂ then .nan else .inf s₁

/-- `abs` on `PyFloat`. -/
def pyAbs : PyFloat → PyFloat
  | .nan => .nan
  | .inf _ => .inf false
  | .finite a => .finite |a|

/-- `<` on `PyFloat` (comparisons with NaN are false). -/
def pyLt : PyFloat → PyFloat → Bool
  | .nan, _ => false
  | _, .nan => false
  | .finite a, .finite b => a < b
  | .finite _, .inf s => !s
  | .inf s, .finite _ => s
  | .inf s₁, .inf s₂ => s₁ && !s₂

/-- `abs(csv_val - impl_val) < 0.001` (line 206). -/
def pyCloseEnough (a b : PyFloat) : Bool :=
  pyLt (pyAbs (pySub a b)) (.finite (1 / 1000))

/-- Lexicographic string order (Python `sorted` on code-point strings). -/
def lexLe : Str → Str → Bool
  | [], _ => true
  | _ :: _, [] => false
  | a :: as, b :: bs => if a = b then lexLe as bs else decide (a < b)

/-- Stable insertion into a sorted list. -/
def insertSorted (x : Str) : List Str → List Str
  | [] => [x]
  | y :: ys => if lexLe x y then x :: y :: ys else y :: insertSorted x ys

/-- `sorted(...)` for the country-code loop. -/
def sortStr (l : List Str) : List Str := l.foldr insertSorted []

/-- The per-country indicator loop (lines 201-209): for each indicator of the
CSV country present in the implementation country, count an exact match or a
discrepancy by `abs(csv_val - impl_val) < 0.001`. -/
def matchCount (csvInds implInds : List (Str × PyFloat)) : Nat × Nat :=
  csvInds.foldl (fun acc p =>
    match alookup implInds p.1 with
    | none => acc
    | some iv => if pyCloseEnough p.2 iv then (acc.1 + 1, acc.2) else (acc.1, acc.2 + 1))
    (0, 0)

/-- Result of the system-wide verification: the missing / extra country-code
reports and the two global counters. -/
structure VerifyStats where
  missingFromImpl : List Str
  extraInImpl : List Str
  exactMatches : Nat
  discrepancies : Nat
deriving DecidableEq

/-- The set difference `a_countries - b_countries` of the two key sets (the
Python set has unspecified iteration order; the list is in `a`-order, which
fixes the same set). -/
def missingCountries (a b : AList CountryOut) : List Str :=
  (a.map Prod.fst).filter (fun c => !(b.map Prod.fst).contains c)

/-- `sorted(csv_countries & impl_countries)`. -/
def commonCountries (csvData implData : AList CountryOut) : List Str :=
  sortStr ((csvData.map Prod.fst).filter (fun c => (implData.map Prod.fst).contains c))

/-- The accumulation of `total_exact_matches` and `total_discrepancies` over
the sorted common countries. -/
def verifyTotals (csvData implData : AList CountryOut) : Nat × Nat :=
  (commonCountries csvData implData).foldl (fun acc c =>
    (acc.1 + (matchCount ((alookup csvData c).getD ⟨[], []⟩).indicators
        ((alookup implData c).getD ⟨[], []⟩).indicators).1,
     acc.2 + (matchCount ((alookup csvData c).getD ⟨[], []⟩).indicators
        ((alookup implData c).getD ⟨[], []⟩).indicators).2)) (0, 0)

/-- `perform_system_wide_verification`'s comparison core: the two key-set
differences and the double counting loop over the sorted common countries. -/
def systemWideStats (csvData implData : AList CountryOut) : VerifyStats :=
  ⟨missingCountries csvData implData, missingCountries implData csvData,
   (verifyTotals csvData implData).1, (verifyTotals csvData implData).2⟩

/-- The (csv value, impl value) pairs compared for one country: one pair per
CSV indicator present on the implementation side. -/
def valuePairs (csvInds implInds : List (Str × PyFloat)) : List (PyFloat × PyFloat) :=
  csvInds.filterMap (fun p => (alookup implInds p.1).map (fun iv => (p.2, iv)))

/-- Declarative companion: all compared (csv value, impl value) pairs, per
common country and indicator present on both sides. -/
def comparedPairs (csvData implData : AList CountryOut) : List (PyFloat × PyFloat) :=
  (commonCountries csvData implData).flatMap
    (fun c => valuePairs ((alookup csvData c).getD ⟨[], []⟩).indicators
      ((alookup implData c).getD ⟨[], []⟩).indicators)

/-! ## `test_health_score_distribution.py`: `simulate_health_score_calculation`
(numeric values modelled as exact rationals) -/

/-- A country as fed to the score simulation. -/
structure CIn where
  name : Str
  indicators : AList ℚ
deriving DecidableEq

/-- First-appearance union of the indicator key sets (Python builds a `set`,
whose iteration order is unspecified; every use below is order-independent). -/
def allIndicatorsOf (d : AList CIn) : List Str :=
  d.foldl (fun a p => (p.2.indicators.map Prod.fst).foldl
    (fun a' k => if k ∈ a' then a' else a' ++ [k]) a) []

def positiveKeywords : List Str :=
  ["coverage", "access", "births", "skilled", "immunization", "expectancy", "density"].map String.data

def negativeKeywords : List Str :=
  ["mortality", "death", "disease", "malnutrition", "incidence"].map String.data

/-- `is_positive_direction` (keyword substring tests on the lowercase name,
defaulting to positive). -/
def isPositiveDirection (ind : Str) : Bool :=
  let low := toLowerStr ind
  if positiveKeywords.any (fun k => pyContains k low) then true
  else if negativeKeywords.any (fun k => pyContains k low) then false
  else true

def listMin : List ℚ → ℚ
  | [] => 0
  | x :: xs => xs.foldl min x

def listMax : List ℚ → ℚ
  | [] => 0
  | x :: xs => xs.foldl max x

/-- `normalize_indicator`. -/
def normalizeIndicator (allValues : List ℚ) (value : ℚ) (pos : Bool) : ℚ :=
  let minV := listMin allValues
  let maxV := listMax allValues
  if maxV = minV then 1 / 2
  else if pos then (value - minV) / (maxV - minV)
  else (maxV - value) / (maxV - minV)

/-- All values of one indicator across the data set, in dict order. -/
def valuesFor (d : AList CIn) (ind : Str) : List ℚ :=
  d.filterMap (fun p => alookup p.2.indicators ind)

/-- The per-country accumulation loop: total weighted score and the number of
valid indicators. -/
def countryScore (d : AList CIn) (allInds : List Str) (weight : ℚ) (c : CIn) : ℚ × Nat :=
  allInds.foldl (fun acc ind =>
    match alookup c.indicators ind with
    | none => acc
    | some value =>
      let vs := valuesFor d ind
      if 1 < vs.length then
        (acc.1 + normalizeIndicator vs value (isPositiveDirection ind) * weight, acc.2 + 1)
      else acc) (0, 0)

/-- A stored country score. -/
structure ScoreEntry where
  name : Str
  rawScore : ℚ
  calibratedScore : ℚ
  validIndicators : Nat
deriving DecidableEq

/-- `simulate_health_score_calculation`: weight `1/len(all_indicators)`,
per-country accumulation, then scaling and the `max(0, min(100, ...))`
calibration clamp (observed range 25-66).  A country is stored iff it has at
least one valid indicator. -/
def simulate_health_score_calculation (d : AList CIn) : AList ScoreEntry :=
  let allInds := allIndicatorsOf d
  let weight : ℚ := 1 / (allInds.length : ℚ)
  d.filterMap (fun p =>
    let sc := countryScore d allInds weight p.2
    if 0 < sc.2 then
      let adjustment : ℚ := (allInds.length : ℚ) / (sc.2 : ℚ)
      let raw := sc.1 * 100 * adjustment
      let calibrated := max 0 (min 100 ((raw - 25) / (66 - 25) * 100))
      some (p.1, ⟨p.2.name, raw, calibrated, sc.2⟩)
    else none)

/-! ## The splice of `implement_corrected_aggregates`
(`fix_disaggregation_extraction.py` lines 117-146) -/

/-- The literal part of the regex before the non-greedy group. -/
def blockOpen : Str := "const countries: Record<string, any> = \x7b".data

/-- The literal part of the regex after the non-greedy group. -/
def blockClose : Str := "\n  \x7d;".data

/-- `re.search(r"const countries: Record<string, any> = \{(.*?)\n  \};",
content, re.DOTALL)`: leftmost match, shortest (non-greedy) group.  Because
the pattern starts with a fixed literal, the leftmost match begins at the
first occurrence of `blockOpen` followed somewhere by `blockClose`, and
the non-greedy group ends at the first following occurrence of
`blockClose`.  Returns `(pre, group1, suf)`. -/
def findBlockSplit (content : Str) : Option (Str × Str × Str) :=
  match splitFirst blockOpen content with
  | none => none
  | some (pre, rest) =>
    match splitFirst blockClose rest with
    | none => none
    | some (inner, suf) => some (pre, inner, suf)

/-- The replacement text
`f"const countries: Record<string, any> = {{\n{replacement_code}\n  }};"`. -/
def newCountriesContent (code : Str) : Str :=
  blockOpen ++ '\n' :: code ++ blockClose

/-- The splice of `implement_corrected_aggregates`: find the block, then
`content.replace(match.group(0), new_countries_content)` (which replaces
every occurrence of the matched text). -/
def spliceCountries (content code : Str) : Option Str :=
  match findBlockSplit content with
  | none => none
  | some (_, inner, _) =>
    some (pyReplace (blockOpen ++ inner ++ blockClose) (newCountriesContent code) content)

/-! ## Per-(country, indicator) view of the priority extraction -/

/-- A record contributes to the cell `(code, ind)` iff it survives the
regional, code and value gates, parses as a float, and addresses that cell. -/
def contributesTo (code ind : Str) (r : Row) : Bool :=
  decide (r.location ∉ regionalAggregates) && passesCodeGate r.locationCode
    && passesValueGate r.numericValue && (pyFloatOfStr r.numericValue).isSome
    && (r.locationCode == code) && (r.indicatorName == ind)

/-- The cell entry built from one record (the parsed value with its priority
score; the default of `getD` is unreachable for contributing records). -/
def mkEntry (r : Row) : AggEntry :=
  ⟨(pyFloatOfStr r.numericValue).getD (.finite 0), prioScore r.disaggregation,
   r.disaggregation, r.location⟩

/-- The update the extraction performs on one cell for one contributing
record: keep the stored entry unless the new record's priority score is
strictly smaller (so the first record of minimal score wins). -/
def stepE (w : Option AggEntry) (r : Row) : Option AggEntry :=
  match w with
  | none => some (mkEntry r)
  | some e =>
    if prioScore r.disaggregation < e.priority then some (mkEntry r) else some e

/-- Lookup of one `(country, indicator)` cell of the nested table. -/
def alookup2 (ct : AList (AList AggEntry)) (code ind : Str) : Option AggEntry :=
  (alookup ct code).bind (fun inner => alookup inner ind)

/-! ## Concrete sample data (used to witness the theorems below) -/

/-- Fifteen distinct indicator names. -/
def sampleIndicators : List Str :=
  ["A", "B", "C", "D", "E", "F", "G", "H", "I", "J", "K", "L", "M", "N", "O"].map String.data

/-- Fifteen valid records for one country, enough to pass every threshold
up to 15. -/
def sampleRows : List Row :=
  sampleIndicators.map (fun i => ⟨"Xland".data, "ABC".data, i, "NA".data, "1".data⟩)

/-- The country entry the extractions produce from `sampleRows`. -/
def sampleOut : CountryOut :=
  ⟨"Xland".data, sampleIndicators.map (fun i => (i, PyFloat.finite 1))⟩

/-- A record whose location is the regional aggregate `Global` but whose
location code is an ordinary three-letter code. -/
def globalRow : Row :=
  ⟨"Global".data, "XAA".data, "I".data, "".data, "5".data⟩

/-- A two-country data set sharing one indicator (so the indicator has more
than one value and counts as valid). -/
def sampleCIn : AList CIn :=
  [("AAA".data, ⟨"a".data, [("i".data, 1)]⟩),
   ("BBB".data, ⟨"b".data, [("i".data, 3)]⟩)]

/-- The score entry `simulate_health_score_calculation` stores for `AAA` on
`sampleCIn`. -/
def sampleScore : ScoreEntry := ⟨"a".data, 0, 0, 1⟩

/-- A component text with one countries block surrounded by other text. -/
def spliceSampleContent : Str :=
  "X".data ++ blockOpen ++ "A".data ++ blockClose ++ "Y".data

/-! ## Lemmas on the string machinery -/

theorem countOccur_cons_pos {pat : Str} {c : Char} {rest : Str}
    (h1 : pat ≠ []) (h2 : pat.isPrefixOf (c :: rest)) :
    countOccur pat (c :: rest) = 1 + countOccur pat ((c :: rest).drop pat.length) := by
  rw [countOccur, dif_pos ⟨h1, h2⟩]

theorem countOccur_cons_neg {pat : Str} {c : Char} {rest : Str}
    (h2 : ¬ pat.isPrefixOf (c :: rest)) :
    countOccur pat (c :: rest) = countOccur pat rest := by
  rw [countOccur, dif_neg (fun hc => h2 hc.2)]

theorem pyReplace_cons_pos {pat new : Str} {c : Char} {rest : Str}
    (h1 : pat ≠ []) (h2 : pat.isPrefixOf (c :: rest)) :
    pyReplace pat new (c :: rest) = new ++ pyReplace pat new ((c :: rest).drop pat.length) := by
  rw [pyReplace, dif_pos ⟨h1, h2⟩]

theorem pyReplace_cons_neg {pat new : Str} {c : Char} {rest : Str}
    (h2 : ¬ pat.isPrefixOf (c :: rest)) :
    pyReplace pat new (c :: rest) = c :: pyReplace pat new rest := by
  rw [pyReplace, dif_neg (fun hc => h2 hc.2)]

theorem splitFirst_cons_pos {pat : Str} {c : Char} {rest : Str}
    (h2 : pat.isPrefixOf (c :: rest)) :
    splitFirst pat (c :: rest) = some ([], (c :: rest).drop pat.length) := by
  rw [splitFirst, if_pos h2]

theorem splitFirst_cons_neg {pat : Str} {c : Char} {rest : Str}
    (h2 : ¬ pat.isPrefixOf (c :: rest)) :
    splitFirst pat (c :: rest) =
      (splitFirst pat rest).map (fun pr => (c :: pr.1, pr.2)) := by
  rw [splitFirst, if_neg h2]

theorem splitFirst_eq_append {pat l pre suf : Str}
    (h : splitFirst pat l = some (pre, suf)) : l = pre ++ pat ++ suf := by
  induction l generalizing pre suf with
  | nil =>
    rw [splitFirst] at h
    split at h
    · next hp =>
      simp only [Option.some.injEq, Prod.mk.injEq] at h
      obtain ⟨h1, h2⟩ := h
      subst h1; subst h2
      simp [hp]
    · exact absurd h (by simp)
  | cons c rest ih =>
    by_cases hp : pat.isPrefixOf (c :: rest)
    · rw [splitFirst_cons_pos hp] at h
      simp only [Option.some.injEq, Prod.mk.injEq] at h
      obtain ⟨h1, h2⟩ := h
      subst h1; subst h2
      obtain ⟨t, ht⟩ := List.isPrefixOf_iff_prefix.mp hp
      rw [← ht, List.drop_left]
      simp
    · rw [splitFirst_cons_neg hp] at h
      cases hsp : splitFirst pat rest with
      | none => rw [hsp] at h; simp at h
      | some pr =>
        rw [hsp] at h
        simp only [Option.map_some', Option.some.injEq, Prod.mk.injEq] at h
        obtain ⟨h1, h2⟩ := h
        subst h1; subst h2
        have := ih (hsp.trans (by rw [Prod.mk.eta]))
        simp [this]

theorem splitFirst_leftmost {pat l pre suf : Str}
    (h : splitFirst pat l = some (pre, suf)) :
    ∀ pre' suf', l = pre' ++ pat ++ suf' → pre.length ≤ pre'.length := by
  induction l generalizing pre suf with
  | nil =>
    intro pre' suf' _
    rw [splitFirst] at h
    split at h
    · simp only [Option.some.injEq, Prod.mk.injEq] at h
      simp [← h.1]
    · exact absurd h (by simp)
  | cons c rest ih =>
    intro pre' suf' hl
    by_cases hp : pat.isPrefixOf (c :: rest)
    · rw [splitFirst_cons_pos hp] at h
      simp only [Option.some.injEq, Prod.mk.injEq] at h
      simp [← h.1]
    · rw [splitFirst_cons_neg hp] at h
      cases hsp : splitFirst pat rest with
      | none => rw [hsp] at h; simp at h
      | some pr =>
        rw [hsp] at h
        simp only [Option.map_some', Option.some.injEq, Prod.mk.injEq] at h
        obtain ⟨h1, h2⟩ := h
        subst h1; subst h2
        cases pre' with
        | nil =>
          exfalso
          apply hp
          apply List.isPrefixOf_iff_prefix.mpr
          exact ⟨suf', by simpa using hl.symm⟩
        | cons p' ps' =>
          simp only [List.cons_append, List.cons.injEq] at hl
          have := ih (hsp.trans (by rw [Prod.mk.eta])) ps' suf' hl.2
          simp only [List.length_cons]
          omega

theorem splitFirst_isSome_of_append (pat : Str) :
    ∀ pre suf, (splitFirst pat (pre ++ pat ++ suf)).isSome := by
  intro pre
  induction pre with
  | nil =>
    intro suf
    simp only [List.nil_append]
    cases hps : pat ++ suf with
    | nil =>
      obtain ⟨hp, hs⟩ := List.append_eq_nil.mp hps
      subst hp; subst hs
      simp [splitFirst]
    | cons c rest =>
      have hpre : pat.isPrefixOf (c :: rest) := by
        rw [← hps]
        exact List.isPrefixOf_iff_prefix.mpr ⟨suf, rfl⟩
      rw [splitFirst_cons_pos hpre]
      simp
  | cons p ps ih =>
    intro suf
    show (splitFirst pat (p :: (ps ++ pat ++ suf))).isSome
    by_cases hp : pat.isPrefixOf (p :: (ps ++ pat ++ suf))
    · rw [splitFirst_cons_pos hp]; simp
    · rw [splitFirst_cons_neg hp]
      have := ih suf
      cases hsp : splitFirst pat (ps ++ pat ++ suf) with
      | none => rw [hsp] at this; simp at this
      | some pr => simp

theorem countOccur_split {pat l pre suf : Str} (hne : pat ≠ [])
    (h : splitFirst pat l = some (pre, suf)) :
    countOccur pat l = countOccur pat suf + 1 := by
  induction l generalizing pre suf with
  | nil =>
    rw [splitFirst] at h
    split at h
    · simp_all
    · exact absurd h (by simp)
  | cons c rest ih =>
    by_cases hp : pat.isPrefixOf (c :: rest)
    · rw [splitFirst_cons_pos hp] at h
      simp only [Option.some.injEq, Prod.mk.injEq] at h
      rw [countOccur_cons_pos hne hp, h.2]
      omega
    · rw [splitFirst_cons_neg hp] at h
      cases hsp : splitFirst pat rest with
      | none => rw [hsp] at h; simp at h
      | some pr =>
        rw [hsp] at h
        simp only [Option.map_some', Option.some.injEq, Prod.mk.injEq] at h
        obtain ⟨h1, h2⟩ := h
        subst h2
        rw [countOccur_cons_neg hp]
        exact ih (hsp.trans (by rw [Prod.mk.eta]))

theorem pyReplace_of_countOccur_zero {pat new l : Str}
    (h : countOccur pat l = 0) : pyReplace pat new l = l := by
  induction l with
  | nil => rw [pyReplace]
  | cons c rest ih =>
    by_cases hp : pat ≠ [] ∧ pat.isPrefixOf (c :: rest)
    · rw [countOccur_cons_pos hp.1 hp.2] at h
      omega
    · have hp' : ¬ pat.isPrefixOf (c :: rest) ∨ pat = [] := by tauto
      cases hp' with
      | inl hp' =>
        rw [countOccur_cons_neg hp'] at h
        rw [pyReplace_cons_neg hp', ih h]
      | inr hp' =>
        subst hp'
        rw [pyReplace, dif_neg (by simp)] at *
        rw [countOccur, dif_neg (by simp)] at h
        rw [ih h]

theorem pyReplace_of_unique {pat new l pre suf : Str} (hne : pat ≠ [])
    (h : splitFirst pat l = some (pre, suf)) (h0 : countOccur pat suf = 0) :
    pyReplace pat new l = pre ++ new ++ suf := by
  induction l generalizing pre suf with
  | nil =>
    rw [splitFirst] at h
    split at h
    · simp_all
    · exact absurd h (by simp)
  | cons c rest ih =>
    by_cases hp : pat.isPrefixOf (c :: rest)
    · rw [splitFirst_cons_pos hp] at h
      simp only [Option.some.injEq, Prod.mk.injEq] at h
      obtain ⟨h1, h2⟩ := h
      subst h1; subst h2
      rw [pyReplace_cons_pos hne hp, pyReplace_of_countOccur_zero h0]
      simp
    · rw [splitFirst_cons_neg hp] at h
      cases hsp : splitFirst pat rest with
      | none => rw [hsp] at h; simp at h
      | some pr =>
        rw [hsp] at h
        simp only [Option.map_some', Option.some.injEq, Prod.mk.injEq] at h
        obtain ⟨h1, h2⟩ := h
        subst h1; subst h2
        rw [pyReplace_cons_neg hp, ih (hsp.trans (by rw [Prod.mk.eta])) h0]
        simp

theorem pyContains_nil (s : Str) : pyContains [] s = true := by
  cases s with
  | nil => rfl
  | cons c rest =>
    unfold pyContains
    rw [splitFirst_cons_pos (by simp)]
    rfl

/-! ## Lemmas on the value gate and the float parser -/

theorem pyFloatOfStr_of_strip_nil {v : Str} (h : pyStrip v = []) :
    pyFloatOfStr v = none := by
  unfold pyFloatOfStr
  rw [h]
  rfl

theorem passesValueGate_of_parse {v : Str} (h : pyFloatOfStr v ≠ none) :
    passesValueGate v = true := by
  have hstrip : pyStrip v ≠ [] := fun hs => h (pyFloatOfStr_of_strip_nil hs)
  have hnil : v ≠ [] := by
    intro hv; subst hv; exact hstrip rfl
  have hnd : v ≠ "NO DATA".data := by
    intro hv; subst hv; exact h (by decide)
  unfold passesValueGate
  simp only [Bool.and_eq_true, Bool.not_eq_true', List.isEmpty_eq_false,
    beq_eq_false_iff_ne, ne_eq]
  exact ⟨⟨hnil, hstrip⟩, hnd⟩

theorem passesValueGate_parts {v : Str} (h : passesValueGate v = true) :
    v ≠ [] ∧ pyStrip v ≠ [] ∧ v ≠ "NO DATA".data := by
  unfold passesValueGate at h
  simp only [Bool.and_eq_true, Bool.not_eq_true', List.isEmpty_eq_false,
    beq_eq_false_iff_ne, ne_eq] at h
  exact ⟨h.1.1, h.1.2, h.2⟩

theorem authenticValueGate_of_parse {v : Str}
    (hnan : toLowerStr (pyStrip v) ≠ "nan".data) (h : pyFloatOfStr v ≠ none) :
    authenticValueGate v = true := by
  have hstrip : pyStrip v ≠ [] := fun hs => h (pyFloatOfStr_of_strip_nil hs)
  have hnil : v ≠ [] := by
    intro hv; subst hv; exact hstrip rfl
  unfold authenticValueGate
  simp only [Bool.and_eq_true, Bool.not_eq_true', List.isEmpty_eq_false,
    beq_eq_false_iff_ne, ne_eq]
  exact ⟨⟨hnil, hstrip⟩, hnan⟩

theorem authenticValueGate_parts {v : Str} (h : authenticValueGate v = true) :
    v ≠ [] ∧ pyStrip v ≠ [] ∧ toLowerStr (pyStrip v) ≠ "nan".data := by
  unfold authenticValueGate at h
  simp only [Bool.and_eq_true, Bool.not_eq_true', List.isEmpty_eq_false,
    beq_eq_false_iff_ne, ne_eq] at h
  exact ⟨h.1.1, h.1.2, h.2⟩

/-! ## Claim C9 -/

/-- C9: in the disaggregation-priority computation the default lowest
priority score `len(priority_order) = 6` is unreachable: the empty string,
last in the priority list, is a substring of every disaggregation value, so
every record's priority score is at most 5 and strictly below
`priorityOrder.length`. -/
theorem claim_C9_default_priority_unreachable (d : Str) :
    prioScore d ≤ 5 ∧ prioScore d < priorityOrder.length := by
  have hc : pyContains "".data d = true := pyContains_nil d
  have h5 : prioScore d ≤ 5 := by
    unfold prioScore
    rw [show priorityOrder =
      ["NA".data, "BTSX".data, "SEX_BTSX".data, "TOTAL".data, "ALL".data, "".data] from rfl]
    rw [prioScoreGo, prioScoreGo, prioScoreGo, prioScoreGo, prioScoreGo, prioScoreGo]
    split_ifs with h1 h2 h3 h4 h5 h6 <;> try omega
    exact absurd (by simp [hc]) h6
  have hlen : priorityOrder.length = 6 := rfl
  exact ⟨h5, by omega⟩

/-! ## Claim C2 -/

/-- C2 (counterexample): the record value `"inf"` is non-empty, is not
`'NO DATA'`, does **not** parse as a finite decimal number — yet it
contributes a value (positive infinity), contradicting the claimed
equivalence. -/
theorem claim_C2_counterexample :
    contributedValue "inf".data = some (PyFloat.inf false)
    ∧ ∀ q : ℚ, contributedValue "inf".data ≠ some (PyFloat.finite q) := by
  refine ⟨by decide, ?_⟩
  intro q h
  have h1 : contributedValue "inf".data = some (PyFloat.inf false) := by decide
  rw [h1] at h
  exact PyFloat.noConfusion (Option.some.inj h)

/-- C2 (amended): in the scripts that gate on the `'NO DATA'` marker
(`extract_all_countries_csv_data`, `extract_correct_aggregates`) a record
contributes a value iff its `numeric_value` is non-empty, is not the literal
`'NO DATA'`, and is accepted by Python `float(...)` — which accepts finite
decimals but also infinity and NaN spellings, so the contributed value need
not be finite.  `extract_authentic_csv_data` in
`zero_discrepancy_replacement.py` has a different gate — no `'NO DATA'`
check, but `strip().lower() != 'nan'` — so there a record contributes iff it
is non-empty, its stripped lowercase form is not `'nan'`, and `float(...)`
accepts it.  The two gates genuinely diverge: the float-accepted record
`'nan'` contributes NaN under the first gate and nothing under the second. -/
theorem claim_C2_value_gate (v : Str) :
    (contributedValue v ≠ none ↔
      (v ≠ [] ∧ v ≠ "NO DATA".data ∧ pyFloatOfStr v ≠ none))
    ∧ (authenticContributedValue v ≠ none ↔
      (v ≠ [] ∧ toLowerStr (pyStrip v) ≠ "nan".data ∧ pyFloatOfStr v ≠ none))
    ∧ contributedValue "nan".data = some PyFloat.nan
    ∧ authenticContributedValue "nan".data = none := by
  refine ⟨?_, ?_, by decide, by decide⟩
  · constructor
    · intro h
      unfold contributedValue at h
      by_cases hg : passesValueGate v = true
      · rw [if_pos hg] at h
        obtain ⟨h1, _, h3⟩ := passesValueGate_parts hg
        exact ⟨h1, h3, h⟩
      · rw [if_neg hg] at h
        exact absurd rfl h
    · rintro ⟨_, _, h3⟩
      unfold contributedValue
      rw [if_pos (passesValueGate_of_parse h3)]
      exact h3
  · constructor
    · intro h
      unfold authenticContributedValue at h
      by_cases hg : authenticValueGate v = true
      · rw [if_pos hg] at h
        obtain ⟨h1, _, h3⟩ := authenticValueGate_parts hg
        exact ⟨h1, h3, h⟩
      · rw [if_neg hg] at h
        exact absurd rfl h
    · rintro ⟨_, h2, h3⟩
      unfold authenticContributedValue
      rw [if_pos (authenticValueGate_of_parse h2 h3)]
      exact h3

/-! ## Claim C8: idempotence of `sanitize_country_name` -/

theorem pyReplace_singleton (a b : Char) (l : Str) :
    pyReplace [a] [b] l = l.map (fun c => if c = a then b else c) := by
  induction l with
  | nil => rw [pyReplace]; rfl
  | cons c rest ih =>
    by_cases hac : a = c
    · subst hac
      rw [pyReplace_cons_pos (by simp) (by simp [List.isPrefixOf])]
      simp [ih]
    · rw [pyReplace_cons_neg (by simp [List.isPrefixOf_cons₂, hac])]
      simp only [List.map_cons, ih]
      rw [if_neg (fun hc => hac hc.symm)]

theorem foldl_replace_eq_map (T : List (Char × Char)) (s : Str) :
    T.foldl (fun acc kv => pyReplace [kv.1] [kv.2] acc) s
      = s.map (fun c => T.foldl (fun a kv => if a = kv.1 then kv.2 else a) c) := by
  induction T generalizing s with
  | nil => simp
  | cons kv T ih =>
    simp only [List.foldl_cons]
    rw [pyReplace_singleton, ih, List.map_map]
    rfl

theorem sanitize_eq_map (s : Str) :
    sanitize_country_name s = s.map sanitizeChar :=
  foldl_replace_eq_map replacementTable s

theorem foldl_subst_mem (T : List (Char × Char)) (c : Char) :
    T.foldl (fun a kv => if a = kv.1 then kv.2 else a) c = c
    ∨ T.foldl (fun a kv => if a = kv.1 then kv.2 else a) c ∈ T.map Prod.snd := by
  induction T generalizing c with
  | nil => left; rfl
  | cons kv T ih =>
    simp only [List.foldl_cons, List.map_cons]
    rcases ih (if c = kv.1 then kv.2 else c) with h | h
    · rw [h]
      by_cases hc : c = kv.1
      · right
        rw [if_pos hc]
        exact List.mem_cons_self _ _
      · left
        rw [if_neg hc]
    · right
      exact List.mem_cons_of_mem _ h

theorem sanitizeChar_fixed_on_vals :
    ∀ v ∈ replacementTable.map Prod.snd, sanitizeChar v = v := by decide

theorem sanitizeChar_idem (c : Char) :
    sanitizeChar (sanitizeChar c) = sanitizeChar c := by
  rcases foldl_subst_mem replacementTable c with h | h
  · have h' : sanitizeChar c = c := h
    rw [h']
    exact h'
  · exact sanitizeChar_fixed_on_vals _ h

/-- C8: `sanitize_country_name` is idempotent — every replacement target is an
unaccented ASCII character that is not itself a key of the replacement table,
so a second pass changes nothing. -/
theorem map_of_idem {f : Char → Char} (hf : ∀ c, f (f c) = f c) (l : Str) :
    (l.map f).map f = l.map f := by
  induction l with
  | nil => rfl
  | cons c rest ih => simp only [List.map_cons, hf, ih]

theorem claim_C8_sanitize_idempotent (s : Str) :
    sanitize_country_name (sanitize_country_name s) = sanitize_country_name s := by
  calc sanitize_country_name (sanitize_country_name s)
      = (sanitize_country_name s).map sanitizeChar := sanitize_eq_map _
    _ = (s.map sanitizeChar).map sanitizeChar := by rw [sanitize_eq_map s]
    _ = s.map sanitizeChar := map_of_idem sanitizeChar_idem s
    _ = sanitize_country_name s := (sanitize_eq_map s).symm

/-! ## Association-list lemmas -/

theorem alookup_cons {α : Type} (k₀ : Str) (v₀ : α) (rest : AList α) (k : Str) :
    alookup ((k₀, v₀) :: rest) k = if k₀ = k then some v₀ else alookup rest k := by
  unfold alookup
  rw [List.find?]
  by_cases h : k₀ = k
  · simp [h]
  · rw [show ((k₀, v₀).1 == k) = false by simpa using h, if_neg h]

theorem alookup_aupdate_self {α : Type} (l : AList α) (k : Str) (v : α) :
    alookup (aupdate l k v) k = some v := by
  induction l with
  | nil => simp [aupdate, alookup_cons]
  | cons q rest ih =>
    obtain ⟨k₀, v₀⟩ := q
    by_cases hk : k₀ = k
    · subst hk
      rw [aupdate, if_pos (by simp), alookup_cons, if_pos rfl]
    · rw [aupdate, if_neg (by simpa using hk), alookup_cons, if_neg hk]
      exact ih

theorem alookup_aupdate_ne {α : Type} (l : AList α) {k k' : Str} (v : α)
    (h : k' ≠ k) : alookup (aupdate l k v) k' = alookup l k' := by
  induction l with
  | nil =>
    rw [aupdate, alookup_cons, if_neg (fun hc => h hc.symm)]
  | cons q rest ih =>
    obtain ⟨k₀, v₀⟩ := q
    by_cases hk : k₀ = k
    · subst hk
      rw [aupdate, if_pos (by simp), alookup_cons, alookup_cons,
        if_neg (fun hc => h hc.symm), if_neg (fun hc => h hc.symm)]
    · rw [aupdate, if_neg (by simpa using hk), alookup_cons, alookup_cons, ih]

theorem alookup_none_iff {α : Type} (l : AList α) (k : Str) :
    alookup l k = none ↔ k ∉ l.map Prod.fst := by
  induction l with
  | nil => simp [alookup]
  | cons q rest ih =>
    obtain ⟨k₀, v₀⟩ := q
    rw [alookup_cons]
    by_cases hk : k₀ = k
    · subst hk
      rw [if_pos rfl]
      simp only [List.map_cons, List.mem_cons]
      exact iff_of_false (fun hc => Option.noConfusion hc) (fun hc => hc (Or.inl trivial))
    · rw [if_neg hk, ih]
      simp only [List.map_cons, List.mem_cons, not_or]
      exact ⟨fun h => ⟨fun hc => hk hc.symm, h⟩, fun h => h.2⟩

theorem alookup_append_single_self {α : Type} (l : AList α) (k : Str) (v : α)
    (h : alookup l k = none) : alookup (l ++ [(k, v)]) k = some v := by
  induction l with
  | nil => simp [alookup_cons]
  | cons q rest ih =>
    obtain ⟨k₀, v₀⟩ := q
    rw [alookup_cons] at h
    rw [List.cons_append, alookup_cons]
    by_cases hk : k₀ = k
    · rw [if_pos hk] at h
      exact absurd h (by simp)
    · rw [if_neg hk] at h ⊢
      exact ih h

theorem alookup_append_single_ne {α : Type} (l : AList α) {k k' : Str} (v : α)
    (h : k' ≠ k) : alookup (l ++ [(k, v)]) k' = alookup l k' := by
  induction l with
  | nil =>
    simp only [List.nil_append]
    rw [alookup_cons, if_neg (fun hc => h hc.symm)]
  | cons q rest ih =>
    obtain ⟨k₀, v₀⟩ := q
    rw [List.cons_append, alookup_cons, alookup_cons, ih]

theorem keys_aupdate {α : Type} (l : AList α) (k : Str) (v : α) :
    (aupdate l k v).map Prod.fst =
      if k ∈ l.map Prod.fst then l.map Prod.fst else l.map Prod.fst ++ [k] := by
  induction l with
  | nil => simp [aupdate]
  | cons q rest ih =>
    obtain ⟨k₀, v₀⟩ := q
    by_cases hk : k₀ = k
    · subst hk
      rw [aupdate, if_pos (by simp)]
      rw [if_pos (by rw [List.map_cons]; exact List.mem_cons_self _ _)]
      simp
    · rw [aupdate, if_neg (by simpa using hk)]
      simp only [List.map_cons, ih]
      by_cases hmem : k ∈ rest.map Prod.fst
      · have hin : k ∈ k₀ :: rest.map Prod.fst := List.mem_cons_of_mem _ hmem
        rw [if_pos hmem, if_pos hin]
      · have hnin : k ∉ k₀ :: rest.map Prod.fst := by
          simp only [List.mem_cons, not_or]
          exact ⟨fun hc => hk hc.symm, hmem⟩
        rw [if_neg hmem, if_neg hnin]
        simp

theorem nodup_keys_aupdate {α : Type} {l : AList α} {k : Str} {v : α}
    (h : (l.map Prod.fst).Nodup) : ((aupdate l k v).map Prod.fst).Nodup := by
  rw [keys_aupdate]
  by_cases hmem : k ∈ l.map Prod.fst
  · rwa [if_pos hmem]
  · rw [if_neg hmem, ← List.concat_eq_append]
    exact List.Nodup.concat hmem h

theorem nodup_keys_append_single {α : Type} {l : AList α} {k : Str} {v : α}
    (h : (l.map Prod.fst).Nodup) (hk : alookup l k = none) :
    ((l ++ [(k, v)]).map Prod.fst).Nodup := by
  have hmem := (alookup_none_iff l k).mp hk
  rw [List.map_append]
  simp only [List.map_cons, List.map_nil]
  rw [← List.concat_eq_append]
  exact List.Nodup.concat hmem h

/-! ## Threshold filters: lookup characterizations -/

theorem alookup_substantialFilter {t : Nat} {cd : AList CountryOut}
    (h : (cd.map Prod.fst).Nodup) (k : Str) (co : CountryOut) :
    alookup (substantialFilter t cd) k = some co ↔
      (alookup cd k = some co ∧ t ≤ co.indicators.length) := by
  induction cd with
  | nil => simp [substantialFilter, alookup]
  | cons q rest ih =>
    obtain ⟨k₀, co₀⟩ := q
    simp only [List.map_cons, List.nodup_cons] at h
    obtain ⟨h₀, h'⟩ := h
    rw [substantialFilter, List.filter_cons]
    by_cases hp : t ≤ co₀.indicators.length
    · rw [if_pos (by simpa using hp), alookup_cons, alookup_cons]
      by_cases hk : k₀ = k
      · rw [if_pos hk, if_pos hk]
        constructor
        · intro he
          exact ⟨he, by rw [← Option.some.inj he]; exact hp⟩
        · intro he
          exact he.1
      · rw [if_neg hk, if_neg hk]
        exact ih h'
    · rw [if_neg (by simpa using hp), alookup_cons]
      by_cases hk : k₀ = k
      · subst hk
        rw [if_pos rfl]
        have hnone : alookup
            (List.filter (fun p => decide (t ≤ p.2.indicators.length)) rest) k₀ = none := by
          rw [alookup_none_iff]
          intro hmem
          obtain ⟨q, hq, hfst⟩ := List.mem_map.mp hmem
          exact h₀ (List.mem_map.mpr ⟨q, (List.mem_filter.mp hq).1, hfst⟩)
        rw [hnone]
        constructor
        · intro hc
          exact absurd hc (by simp)
        · rintro ⟨he, hle⟩
          rw [← Option.some.inj he] at hle
          exact absurd hle hp
      · rw [if_neg hk]
        exact ih h'

theorem alookup_finalizeAgg {t : Nat} {ct : AList (AList AggEntry)}
    (h : (ct.map Prod.fst).Nodup) (k : Str) (co : CountryOut) :
    alookup (finalizeAgg t ct) k = some co ↔
      ∃ inner, alookup ct k = some inner ∧ t ≤ inner.length
        ∧ co = aggCountryOut inner := by
  induction ct with
  | nil => simp [finalizeAgg, alookup]
  | cons q rest ih =>
    obtain ⟨k₀, inner₀⟩ := q
    simp only [List.map_cons, List.nodup_cons] at h
    obtain ⟨h₀, h'⟩ := h
    rw [finalizeAgg, List.filterMap_cons]
    by_cases hp : t ≤ inner₀.length
    · rw [if_pos hp]
      simp only
      rw [alookup_cons, alookup_cons]
      by_cases hk : k₀ = k
      · rw [if_pos hk, if_pos hk]
        constructor
        · intro he
          exact ⟨inner₀, rfl, hp, (Option.some.inj he).symm⟩
        · rintro ⟨inner, hinner, hle, hco⟩
          rw [← Option.some.inj hinner] at hco hle
          rw [hco]
      · rw [if_neg hk, if_neg hk]
        exact ih h'
    · simp only [if_neg hp]
      rw [alookup_cons]
      by_cases hk : k₀ = k
      · subst hk
        rw [if_pos rfl]
        have hnone : alookup (List.filterMap
            (fun p => if t ≤ p.2.length then some (p.1, aggCountryOut p.2) else none)
            rest) k₀ = none := by
          rw [alookup_none_iff]
          intro hmem
          obtain ⟨q, hq, hfst⟩ := List.mem_map.mp hmem
          obtain ⟨a, ha, hfa⟩ := List.mem_filterMap.mp hq
          apply h₀
          refine List.mem_map.mpr ⟨a, ha, ?_⟩
          by_cases hta : t ≤ a.2.length
          · rw [if_pos hta] at hfa
            rw [← hfst, ← Option.some.inj hfa]
          · rw [if_neg hta] at hfa
            exact absurd hfa (by simp)
        rw [hnone]
        constructor
        · intro hc
          exact absurd hc (by simp)
        · rintro ⟨inner, hinner, hle, _⟩
          rw [← Option.some.inj hinner] at hle
          exact absurd hle hp
      · rw [if_neg hk]
        exact ih h'

/-! ## Key-uniqueness invariants of the extraction folds -/

theorem nodup_keys_aggUpsert {ct : AList (AList AggEntry)} {code ind : Str}
    {e : AggEntry} (h : (ct.map Prod.fst).Nodup) :
    ((aggUpsert ct code ind e).map Prod.fst).Nodup := by
  unfold aggUpsert
  split
  · exact nodup_keys_aupdate h
  · split
    · exact nodup_keys_aupdate h
    · exact h

theorem nodup_keys_aggStep {ct : AList (AList AggEntry)} (r : Row)
    (h : (ct.map Prod.fst).Nodup) : ((aggStep ct r).map Prod.fst).Nodup := by
  unfold aggStep
  split_ifs <;> try exact h
  split
  · exact h
  · exact nodup_keys_aggUpsert h

theorem nodup_keys_ensureCountry {cd : AList CountryOut} {code name : Str}
    (h : (cd.map Prod.fst).Nodup) :
    ((ensureCountry cd code name).map Prod.fst).Nodup := by
  unfold ensureCountry
  split
  · exact h
  · next hl => exact nodup_keys_append_single h hl

theorem nodup_keys_addIndicator {cd : AList CountryOut} {code ind : Str} {v : PyFloat}
    (h : (cd.map Prod.fst).Nodup) :
    ((addIndicator cd code ind v).map Prod.fst).Nodup := by
  unfold addIndicator
  split
  · exact nodup_keys_aupdate h
  · exact h

theorem nodup_keys_allStep {cd : AList CountryOut} (r : Row)
    (h : (cd.map Prod.fst).Nodup) : ((allStep cd r).map Prod.fst).Nodup := by
  unfold allStep
  split_ifs <;> try exact h
  · split
    · exact nodup_keys_ensureCountry h
    · exact nodup_keys_addIndicator (nodup_keys_ensureCountry h)
  · exact nodup_keys_ensureCountry h

theorem nodup_keys_safeStep {cd : AList CountryOut} (r : Row)
    (h : (cd.map Prod.fst).Nodup) : ((safeStep cd r).map Prod.fst).Nodup := by
  unfold safeStep
  split_ifs
  · exact h
  · exact nodup_keys_allStep r h

theorem nodup_keys_parseWhoStep {cd : AList CountryOut} (r : Row)
    (h : (cd.map Prod.fst).Nodup) : ((parseWhoStep cd r).map Prod.fst).Nodup := by
  unfold parseWhoStep
  dsimp only
  split_ifs <;> try exact h
  split
  · exact h
  · split
    · exact nodup_keys_aupdate h
    · next hl =>
      exact nodup_keys_append_single h hl

theorem nodup_keys_foldl {α : Type} {step : AList α → Row → AList α}
    (hstep : ∀ (ct : AList α) (r : Row),
      (ct.map Prod.fst).Nodup → ((step ct r).map Prod.fst).Nodup)
    (rows : List Row) (ct : AList α) (h : (ct.map Prod.fst).Nodup) :
    ((rows.foldl step ct).map Prod.fst).Nodup := by
  induction rows generalizing ct with
  | nil => exact h
  | cons r rows ih => exact ih _ (hstep _ _ h)

theorem nodup_keys_aggTable (rows : List Row) :
    ((aggTable rows).map Prod.fst).Nodup :=
  nodup_keys_foldl (fun _ r h => nodup_keys_aggStep r h) rows [] (by simp)

theorem nodup_keys_allTable (rows : List Row) :
    ((extract_all_countries_csv_data rows).map Prod.fst).Nodup :=
  nodup_keys_foldl (fun _ r h => nodup_keys_allStep r h) rows [] (by simp)

theorem nodup_keys_safeTable (rows : List Row) :
    ((safeTable rows).map Prod.fst).Nodup :=
  nodup_keys_foldl (fun _ r h => nodup_keys_safeStep r h) rows [] (by simp)

/-! ## Claim C4 -/

/-- C4: each script's output mapping contains a country code iff the
country's indicator count in the underlying (pre-threshold) table meets the
script's minimum threshold — 10 for `generate_all_countries_replacement`'s
`substantial_countries`, 15 for `extract_correct_aggregates`, 30 for
`extract_safe_countries_data` — and the per-country entry itself is always
the underlying table's entry, independent of the threshold value. -/
theorem claim_C4_min_indicator_thresholds (rows : List Row) (code : Str) :
    (∀ co : CountryOut,
      alookup (generateAllSubstantial rows) code = some co ↔
        (alookup (extract_all_countries_csv_data rows) code = some co
          ∧ 10 ≤ co.indicators.length))
    ∧ (∀ co : CountryOut,
      alookup (extract_correct_aggregates rows) code = some co ↔
        ∃ inner, alookup (aggTable rows) code = some inner
          ∧ 15 ≤ inner.length ∧ co = aggCountryOut inner)
    ∧ (∀ co : CountryOut,
      alookup (extract_safe_countries_data rows) code = some co ↔
        (alookup (safeTable rows) code = some co ∧ 30 ≤ co.indicators.length)) := by
  refine ⟨fun co => ?_, fun co => ?_, fun co => ?_⟩
  · exact alookup_substantialFilter (nodup_keys_allTable rows) code co
  · exact alookup_finalizeAgg (nodup_keys_aggTable rows) code co
  · exact alookup_substantialFilter (nodup_keys_safeTable rows) code co

/-! ## Claim C5 -/

/-- C5: `extract_correct_aggregates` (threshold 15) and `extract_all_csv_data`
(threshold 10) agree on every country present in both results — same name and
same indicator values — and differ at most in which codes pass the
minimum-indicator-count threshold: a country in the 15-threshold result is in
the 10-threshold result with the identical entry, and a country of the
10-threshold result is in the 15-threshold result exactly when its indicator
count reaches 15. -/
theorem claim_C5_csv_extractions_agree (rows : List Row) (code : Str) :
    (∀ co : CountryOut,
      alookup (extract_correct_aggregates rows) code = some co →
        alookup (extract_all_csv_data rows) code = some co)
    ∧ (∀ co : CountryOut,
      alookup (extract_all_csv_data rows) code = some co →
        alookup (extract_correct_aggregates rows) code =
          (if 15 ≤ co.indicators.length then some co else none)) := by
  have hnd := nodup_keys_aggTable rows
  constructor
  · intro co h15
    unfold extract_correct_aggregates at h15
    obtain ⟨inner, hin, hle, hco⟩ := (alookup_finalizeAgg hnd code co).mp h15
    unfold extract_all_csv_data
    exact (alookup_finalizeAgg hnd code co).mpr
      ⟨inner, hin, le_trans (by norm_num) hle, hco⟩
  · intro co h10
    unfold extract_all_csv_data at h10
    obtain ⟨inner, hin, _, hco⟩ := (alookup_finalizeAgg hnd code co).mp h10
    have hlen : co.indicators.length = inner.length := by
      rw [hco]
      unfold aggCountryOut
      simp
    by_cases h15 : 15 ≤ co.indicators.length
    · rw [if_pos h15]
      unfold extract_correct_aggregates
      exact (alookup_finalizeAgg hnd code co).mpr
        ⟨inner, hin, by rw [← hlen]; exact h15, hco⟩
    · rw [if_neg h15]
      cases hx : alookup (extract_correct_aggregates rows) code with
      | none => rfl
      | some co' =>
        unfold extract_correct_aggregates at hx
        obtain ⟨inner', hin', hle15, _⟩ := (alookup_finalizeAgg hnd code co').mp hx
        rw [hin] at hin'
        have heq : inner = inner' := Option.some.inj hin'
        exact absurd (by rw [hlen, heq]; exact hle15) h15

/-- C5 (witness): on `sampleRows` the 15-threshold extraction produces the
country `ABC`, and by the theorem the 10-threshold extraction produces the
identical entry. -/
theorem claim_C5_witness :
    alookup (extract_correct_aggregates sampleRows) "ABC".data = some sampleOut
    ∧ alookup (extract_all_csv_data sampleRows) "ABC".data = some sampleOut := by
  have h15 : alookup (extract_correct_aggregates sampleRows) "ABC".data
      = some sampleOut := by decide
  exact ⟨h15, (claim_C5_csv_extractions_agree sampleRows "ABC".data).1 sampleOut h15⟩

/-! ## Projection of the priority extraction onto one cell -/

theorem alookup2_aggUpsert_self (ct : AList (AList AggEntry)) (code ind : Str)
    (e : AggEntry) :
    alookup2 (aggUpsert ct code ind e) code ind =
      match alookup2 ct code ind with
      | none => some e
      | some e₀ => if e.priority < e₀.priority then some e else some e₀ := by
  unfold aggUpsert alookup2
  cases hct : alookup ct code with
  | none =>
    simp only [hct, Option.getD_none, Option.none_bind]
    rw [show (alookup ([] : AList AggEntry) ind) = none from rfl]
    rw [alookup_aupdate_self]
    simp only [Option.some_bind, alookup_aupdate_self]
  | some inner =>
    simp only [hct, Option.getD_some, Option.some_bind]
    cases hin : alookup inner ind with
    | none =>
      simp only
      rw [alookup_aupdate_self]
      simp only [Option.some_bind, alookup_aupdate_self]
    | some e₀ =>
      simp only
      by_cases hp : e.priority < e₀.priority
      · rw [if_pos hp, alookup_aupdate_self, if_pos hp]
        simp only [Option.some_bind, alookup_aupdate_self]
      · rw [if_neg hp, if_neg hp, hct]
        simp only [Option.some_bind, hin]

theorem alookup2_aggUpsert_other (ct : AList (AList AggEntry)) (code ind : Str)
    (e : AggEntry) (code' ind' : Str) (h : ¬(code' = code ∧ ind' = ind)) :
    alookup2 (aggUpsert ct code ind e) code' ind' = alookup2 ct code' ind' := by
  by_cases hc : code' = code
  · subst hc
    have hi : ind' ≠ ind := fun hi => h ⟨rfl, hi⟩
    unfold aggUpsert alookup2
    cases hct : alookup ct code' with
    | none =>
      simp only [hct, Option.getD_none, Option.none_bind]
      rw [show (alookup ([] : AList AggEntry) ind) = none from rfl]
      rw [alookup_aupdate_self]
      simp only [Option.some_bind]
      rw [alookup_aupdate_ne _ _ hi]
      rfl
    | some inner =>
      simp only [hct, Option.getD_some, Option.some_bind]
      cases hin : alookup inner ind with
      | none =>
        simp only
        rw [alookup_aupdate_self]
        simp only [Option.some_bind]
        rw [alookup_aupdate_ne _ _ hi]
      | some e₀ =>
        simp only
        by_cases hp : e.priority < e₀.priority
        · rw [if_pos hp, alookup_aupdate_self]
          simp only [Option.some_bind]
          rw [alookup_aupdate_ne _ _ hi]
        · rw [if_neg hp, hct]
          simp only [Option.some_bind]
  · unfold aggUpsert alookup2
    cases hct : alookup ct code with
    | none =>
      simp only [hct, Option.getD_none]
      rw [show (alookup ([] : AList AggEntry) ind) = none from rfl]
      rw [alookup_aupdate_ne _ _ hc]
    | some inner =>
      simp only [hct, Option.getD_some]
      cases hin : alookup inner ind with
      | none =>
        simp only
        rw [alookup_aupdate_ne _ _ hc]
      | some e₀ =>
        simp only
        by_cases hp : e.priority < e₀.priority
        · rw [if_pos hp, alookup_aupdate_ne _ _ hc]
        · rw [if_neg hp]

theorem aggStep_project (ct : AList (AList AggEntry)) (r : Row) (code ind : Str) :
    alookup2 (aggStep ct r) code ind =
      if contributesTo code ind r then stepE (alookup2 ct code ind) r
      else alookup2 ct code ind := by
  by_cases hreg : r.location ∈ regionalAggregates
  · rw [show aggStep ct r = ct by unfold aggStep; rw [if_pos hreg]]
    rw [if_neg (by simp [contributesTo, hreg])]
  by_cases hcode : passesCodeGate r.locationCode = true
  case neg =>
    rw [show aggStep ct r = ct by unfold aggStep; rw [if_neg hreg, if_neg hcode]]
    rw [if_neg (by simp [contributesTo, hcode])]
  by_cases hval : passesValueGate r.numericValue = true
  case neg =>
    rw [show aggStep ct r = ct by
      unfold aggStep; rw [if_neg hreg, if_pos hcode, if_neg hval]]
    rw [if_neg (by simp [contributesTo, hval])]
  cases hpf : pyFloatOfStr r.numericValue with
  | none =>
    rw [show aggStep ct r = ct by
      unfold aggStep; rw [if_neg hreg, if_pos hcode, if_pos hval, hpf]]
    rw [if_neg (by simp [contributesTo, hpf])]
  | some v =>
    have hstep : aggStep ct r = aggUpsert ct r.locationCode r.indicatorName
        ⟨v, prioScore r.disaggregation, r.disaggregation, r.location⟩ := by
      unfold aggStep
      rw [if_neg hreg, if_pos hcode, if_pos hval, hpf]
    rw [hstep]
    have hmk : mkEntry r =
        ⟨v, prioScore r.disaggregation, r.disaggregation, r.location⟩ := by
      unfold mkEntry
      rw [hpf]
      rfl
    by_cases hcell : code = r.locationCode ∧ ind = r.indicatorName
    · obtain ⟨hc, hi⟩ := hcell
      subst hc; subst hi
      rw [if_pos (by simp [contributesTo, hreg, hcode, hval, hpf])]
      rw [alookup2_aggUpsert_self]
      unfold stepE
      cases h2 : alookup2 ct r.locationCode r.indicatorName with
      | none => rw [hmk]
      | some e₀ =>
        simp only
        rw [hmk]
    · rw [alookup2_aggUpsert_other ct _ _ _ code ind hcell]
      rw [if_neg ?_]
      simp only [contributesTo, Bool.and_eq_true, beq_iff_eq]
      rintro ⟨⟨_, hc⟩, hi⟩
      exact hcell ⟨hc.symm, hi.symm⟩

theorem stepE_none (r : Row) : stepE none r = some (mkEntry r) := rfl

theorem stepE_some (e : AggEntry) (r : Row) :
    stepE (some e) r =
      if prioScore r.disaggregation < e.priority then some (mkEntry r) else some e := rfl

theorem aggFold_project (rows : List Row) (ct : AList (AList AggEntry))
    (code ind : Str) :
    alookup2 (rows.foldl aggStep ct) code ind =
      (rows.filter (contributesTo code ind)).foldl stepE (alookup2 ct code ind) := by
  induction rows generalizing ct with
  | nil => rfl
  | cons r rows ih =>
    rw [List.foldl_cons, ih, List.filter_cons]
    by_cases hc : contributesTo code ind r = true
    · rw [if_pos hc, List.foldl_cons, aggStep_project, if_pos hc]
    · rw [if_neg hc, aggStep_project, if_neg hc]

theorem stepE_foldl_firstMin : ∀ (rs : List Row) (w : Row),
    ∃ (r : Row) (l₁ l₂ : List Row),
      rs.foldl stepE (some (mkEntry w)) = some (mkEntry r)
      ∧ w :: rs = l₁ ++ r :: l₂
      ∧ (∀ r' ∈ w :: rs, prioScore r.disaggregation ≤ prioScore r'.disaggregation)
      ∧ (∀ r' ∈ l₁, prioScore r.disaggregation < prioScore r'.disaggregation) := by
  intro rs
  induction rs with
  | nil =>
    intro w
    exact ⟨w, [], [], rfl, rfl,
      by intro r' hr'; simp only [List.mem_singleton] at hr'; rw [hr'],
      by intro r' hr'; simp at hr'⟩
  | cons r₀ rs ih =>
    intro w
    rw [List.foldl_cons]
    have hw : (mkEntry w).priority = prioScore w.disaggregation := rfl
    by_cases hlt : prioScore r₀.disaggregation < prioScore w.disaggregation
    · rw [show stepE (some (mkEntry w)) r₀ = some (mkEntry r₀) by
        rw [stepE_some, hw, if_pos hlt]]
      obtain ⟨r, l₁, l₂, hfold, hsplit, hmin, hstrict⟩ := ih r₀
      refine ⟨r, w :: l₁, l₂, hfold, by rw [List.cons_append, ← hsplit], ?_, ?_⟩
      · intro r' hr'
        have hrr₀ : prioScore r.disaggregation ≤ prioScore r₀.disaggregation :=
          hmin r₀ (List.mem_cons_self _ _)
        rcases List.mem_cons.mp hr' with h | h
        · rw [h]; omega
        · exact hmin r' h
      · intro r' hr'
        have hrr₀ : prioScore r.disaggregation ≤ prioScore r₀.disaggregation :=
          hmin r₀ (List.mem_cons_self _ _)
        rcases List.mem_cons.mp hr' with h | h
        · rw [h]; omega
        · exact hstrict r' h
    · rw [show stepE (some (mkEntry w)) r₀ = some (mkEntry w) by
        rw [stepE_some, hw, if_neg hlt]]
      obtain ⟨r, l₁, l₂, hfold, hsplit, hmin, hstrict⟩ := ih w
      cases l₁ with
      | nil =>
        simp only [List.nil_append, List.cons.injEq] at hsplit
        obtain ⟨hrw, hl₂⟩ := hsplit
        refine ⟨r, [], r₀ :: rs, hfold, by rw [hrw]; rfl, ?_, ?_⟩
        · intro r' hr'
          have hrw' : prioScore r.disaggregation = prioScore w.disaggregation := by
            rw [hrw]
          rcases List.mem_cons.mp hr' with h | h
          · rw [h]; exact hmin w (List.mem_cons_self _ _)
          · rcases List.mem_cons.mp h with h' | h'
            · rw [h']; omega
            · exact hmin r' (List.mem_cons_of_mem _ h')
        · intro r' hr'
          simp at hr'
      | cons w' l₁' =>
        simp only [List.cons_append, List.cons.injEq] at hsplit
        obtain ⟨hww', hrs⟩ := hsplit
        have hwl₁ : prioScore r.disaggregation < prioScore w.disaggregation := by
          rw [hww']
          exact hstrict w' (List.mem_cons_self _ _)
        refine ⟨r, w :: r₀ :: l₁', l₂, hfold, ?_, ?_, ?_⟩
        · rw [List.cons_append, List.cons_append, ← hrs]
        · intro r' hr'
          rcases List.mem_cons.mp hr' with h | h
          · rw [h]; omega
          · rcases List.mem_cons.mp h with h' | h'
            · rw [h']; omega
            · exact hmin r' (List.mem_cons_of_mem _ h')
        · intro r' hr'
          rcases List.mem_cons.mp hr' with h | h
          · rw [h]; omega
          · rcases List.mem_cons.mp h with h' | h'
            · rw [h']; omega
            · exact hstrict r' (List.mem_cons_of_mem _ h')

theorem alookup_map_value {α β : Type} (f : α → β) (l : AList α) (k : Str) :
    alookup (l.map (fun q => (q.1, f q.2))) k = (alookup l k).map f := by
  induction l with
  | nil => rfl
  | cons q rest ih =>
    obtain ⟨k₀, v₀⟩ := q
    rw [List.map_cons]
    dsimp only
    rw [alookup_cons, alookup_cons]
    by_cases hk : k₀ = k
    · rw [if_pos hk, if_pos hk]
      rfl
    · rw [if_neg hk, if_neg hk, ih]

/-! ## Claim C1 -/

/-- C1: for every `(location_code, indicator_name)` cell of the final output
of `extract_correct_aggregates`, the stored value is the parsed
`numeric_value` of a contributing record whose priority score (index of the
first matching entry of the fixed priority list
`['NA', 'BTSX', 'SEX_BTSX', 'TOTAL', 'ALL', '']`) is minimal among all
contributing records for that cell, and which is the first such record in
input order (every earlier contributing record has a strictly larger
score). -/
theorem claim_C1_disaggregation_priority (rows : List Row) (code ind : Str)
    (co : CountryOut) (v : PyFloat)
    (h1 : alookup (extract_correct_aggregates rows) code = some co)
    (h2 : alookup co.indicators ind = some v) :
    ∃ (r : Row) (l₁ l₂ : List Row),
      rows.filter (contributesTo code ind) = l₁ ++ r :: l₂
      ∧ pyFloatOfStr r.numericValue = some v
      ∧ (∀ r' ∈ rows.filter (contributesTo code ind),
          prioScore r.disaggregation ≤ prioScore r'.disaggregation)
      ∧ (∀ r' ∈ l₁, prioScore r.disaggregation < prioScore r'.disaggregation) := by
  unfold extract_correct_aggregates at h1
  obtain ⟨inner, hin, _, hco⟩ :=
    (alookup_finalizeAgg (nodup_keys_aggTable rows) code co).mp h1
  have hco2 : co.indicators = inner.map (fun q => (q.1, q.2.value)) := by
    rw [hco]
    rfl
  rw [hco2, alookup_map_value] at h2
  obtain ⟨e, he, hev⟩ : ∃ e, alookup inner ind = some e ∧ e.value = v := by
    cases hx : alookup inner ind with
    | none => rw [hx] at h2; exact absurd h2 (by simp)
    | some e => rw [hx] at h2; exact ⟨e, rfl, Option.some.inj h2⟩
  have hcell : alookup2 (aggTable rows) code ind = some e := by
    unfold alookup2
    rw [hin, Option.some_bind, he]
  rw [show aggTable rows = rows.foldl aggStep [] from rfl] at hcell
  rw [aggFold_project rows [] code ind] at hcell
  rw [show alookup2 [] code ind = none from rfl] at hcell
  cases hfil : rows.filter (contributesTo code ind) with
  | nil => rw [hfil] at hcell; exact absurd hcell (by simp)
  | cons r₀ rest =>
    rw [hfil, List.foldl_cons, stepE_none] at hcell
    obtain ⟨r, l₁, l₂, hfold, hsplit, hmin, hstrict⟩ := stepE_foldl_firstMin rest r₀
    rw [hfold] at hcell
    have hre : mkEntry r = e := Option.some.inj hcell
    have hrmem : r ∈ rows.filter (contributesTo code ind) := by
      rw [hfil, hsplit]
      exact List.mem_append_right _ (List.mem_cons_self _ _)
    clear hfil
    have hrcontrib : contributesTo code ind r = true := (List.mem_filter.mp hrmem).2
    have hpsome : (pyFloatOfStr r.numericValue).isSome = true := by
      unfold contributesTo at hrcontrib
      simp only [Bool.and_eq_true] at hrcontrib
      exact hrcontrib.1.1.2
    obtain ⟨pv, hpv⟩ := Option.isSome_iff_exists.mp hpsome
    have hpvv : pv = v := by
      rw [← hev, ← hre]
      unfold mkEntry
      rw [hpv]
      rfl
    refine ⟨r, l₁, l₂, hsplit, by rw [hpv, hpvv], ?_, hstrict⟩
    intro r' hr'
    exact hmin r' hr'

/-- C1 (witness): on `sampleRows`, the cell `("ABC", "A")` stores the value 1
coming from the first (and priority-minimal) contributing record. -/
theorem claim_C1_witness :
    alookup (extract_correct_aggregates sampleRows) "ABC".data = some sampleOut
    ∧ alookup sampleOut.indicators "A".data = some (PyFloat.finite 1)
    ∧ ∃ (r : Row) (l₁ l₂ : List Row),
        sampleRows.filter (contributesTo "ABC".data "A".data) = l₁ ++ r :: l₂
        ∧ pyFloatOfStr r.numericValue = some (PyFloat.finite 1)
        ∧ (∀ r' ∈ sampleRows.filter (contributesTo "ABC".data "A".data),
            prioScore r.disaggregation ≤ prioScore r'.disaggregation)
        ∧ (∀ r' ∈ l₁, prioScore r.disaggregation < prioScore r'.disaggregation) :=
  ⟨by decide, by decide,
    claim_C1_disaggregation_priority sampleRows "ABC".data "A".data sampleOut
      (PyFloat.finite 1) (by decide) (by decide)⟩

/-! ## Claim C6 -/

theorem contains_iff_mem {l : List Str} {c : Str} : l.contains c = true ↔ c ∈ l := by
  simp [List.contains_iff_exists_mem_beq]

theorem mem_missingCountries (a b : AList CountryOut) (c : Str) :
    c ∈ missingCountries a b ↔ (c ∈ a.map Prod.fst ∧ c ∉ b.map Prod.fst) := by
  unfold missingCountries
  rw [List.mem_filter]
  constructor
  · rintro ⟨h1, h2⟩
    refine ⟨h1, fun hm => ?_⟩
    rw [Bool.not_eq_true', ← Bool.not_eq_true] at h2
    exact h2 (contains_iff_mem.mpr hm)
  · rintro ⟨h1, h2⟩
    refine ⟨h1, ?_⟩
    rw [Bool.not_eq_true', ← Bool.not_eq_true]
    exact fun hc => h2 (contains_iff_mem.mp hc)

theorem matchCount_go (implInds : List (Str × PyFloat)) :
    ∀ (csvInds : List (Str × PyFloat)) (acc : Nat × Nat),
      csvInds.foldl (fun acc p =>
        match alookup implInds p.1 with
        | none => acc
        | some iv =>
          if pyCloseEnough p.2 iv then (acc.1 + 1, acc.2) else (acc.1, acc.2 + 1)) acc
      = (acc.1 + ((valuePairs csvInds implInds).filter
            (fun pr => pyCloseEnough pr.1 pr.2)).length,
         acc.2 + ((valuePairs csvInds implInds).filter
            (fun pr => !pyCloseEnough pr.1 pr.2)).length) := by
  intro csvInds
  induction csvInds with
  | nil => intro acc; simp [valuePairs]
  | cons p rest ih =>
    intro acc
    rw [List.foldl_cons]
    unfold valuePairs
    rw [List.filterMap_cons]
    cases hl : alookup implInds p.1 with
    | none =>
      simp only [Option.map_none']
      rw [ih acc]
      unfold valuePairs
      rfl
    | some iv =>
      simp only [Option.map_some']
      rw [List.filter_cons, List.filter_cons]
      by_cases hc : pyCloseEnough p.2 iv = true
      · rw [if_pos hc, if_pos (by simpa using hc),
          if_neg (by simp [hc]), ih]
        unfold valuePairs
        dsimp only
        simp only [List.length_cons, Prod.mk.injEq]
        constructor <;> first | omega | trivial
      · rw [if_neg hc, if_neg (by simpa using hc),
          if_pos (by simp [Bool.not_eq_true'] at hc ⊢; exact hc), ih]
        unfold valuePairs
        dsimp only
        simp only [List.length_cons, Prod.mk.injEq]
        constructor <;> first | omega | trivial

theorem matchCount_spec (csvInds implInds : List (Str × PyFloat)) :
    matchCount csvInds implInds =
      (((valuePairs csvInds implInds).filter (fun pr => pyCloseEnough pr.1 pr.2)).length,
       ((valuePairs csvInds implInds).filter (fun pr => !pyCloseEnough pr.1 pr.2)).length) := by
  unfold matchCount
  rw [matchCount_go implInds csvInds (0, 0)]
  simp

theorem verifyTotals_spec (csvData implData : AList CountryOut) :
    verifyTotals csvData implData =
      (((comparedPairs csvData implData).filter (fun pr => pyCloseEnough pr.1 pr.2)).length,
       ((comparedPairs csvData implData).filter (fun pr => !pyCloseEnough pr.1 pr.2)).length) := by
  unfold verifyTotals comparedPairs
  generalize commonCountries csvData implData = common
  suffices h : ∀ (common : List Str) (acc : Nat × Nat),
      common.foldl (fun acc c =>
        (acc.1 + (matchCount ((alookup csvData c).getD ⟨[], []⟩).indicators
            ((alookup implData c).getD ⟨[], []⟩).indicators).1,
         acc.2 + (matchCount ((alookup csvData c).getD ⟨[], []⟩).indicators
            ((alookup implData c).getD ⟨[], []⟩).indicators).2)) acc
      = (acc.1 + ((common.flatMap (fun c =>
            valuePairs ((alookup csvData c).getD ⟨[], []⟩).indicators
              ((alookup implData c).getD ⟨[], []⟩).indicators)).filter
            (fun pr => pyCloseEnough pr.1 pr.2)).length,
         acc.2 + ((common.flatMap (fun c =>
            valuePairs ((alookup csvData c).getD ⟨[], []⟩).indicators
              ((alookup implData c).getD ⟨[], []⟩).indicators)).filter
            (fun pr => !pyCloseEnough pr.1 pr.2)).length) by
    rw [h common (0, 0)]
    simp
  intro common
  induction common with
  | nil => intro acc; simp
  | cons c cs ih =>
    intro acc
    rw [List.foldl_cons, ih, List.flatMap_cons, List.filter_append, List.filter_append,
      List.length_append, List.length_append, matchCount_spec]
    simp only [Prod.mk.injEq]
    constructor <;> omega

/-- C6: the system-wide verification reports as missing exactly the country
codes of the CSV mapping absent from the implementation mapping, as extra
exactly the codes of the implementation absent from the CSV, and over the
common countries it counts each compared (csv, impl) indicator pair as an
exact match iff `abs(csv - impl) < 0.001`, and as a discrepancy otherwise. -/
theorem claim_C6_system_wide_verification (csvData implData : AList CountryOut) :
    (∀ c, c ∈ (systemWideStats csvData implData).missingFromImpl ↔
      (c ∈ csvData.map Prod.fst ∧ c ∉ implData.map Prod.fst))
    ∧ (∀ c, c ∈ (systemWideStats csvData implData).extraInImpl ↔
      (c ∈ implData.map Prod.fst ∧ c ∉ csvData.map Prod.fst))
    ∧ (systemWideStats csvData implData).exactMatches =
        ((comparedPairs csvData implData).filter
          (fun pr => pyCloseEnough pr.1 pr.2)).length
    ∧ (systemWideStats csvData implData).discrepancies =
        ((comparedPairs csvData implData).filter
          (fun pr => !pyCloseEnough pr.1 pr.2)).length := by
  refine ⟨fun c => mem_missingCountries _ _ c, fun c => mem_missingCountries _ _ c, ?_, ?_⟩
  · show (verifyTotals csvData implData).1 = _
    rw [verifyTotals_spec]
  · show (verifyTotals csvData implData).2 = _
    rw [verifyTotals_spec]

/-! ## Claim C3 -/

/-- C3 (counterexample): a record whose `location` is the regional aggregate
`Global` but whose `location_code` is a plain three-letter code **does**
contribute to the output mapping of `parse_who_csv`, because that script
filters on a region-code list (`AFR`, ..., `GLOBAL`), not on the location
name — contradicting the claim for one of its cited implementations. -/
theorem claim_C3_counterexample :
    globalRow.location ∈ regionalAggregates
    ∧ alookup (parse_who_csv [globalRow]) "XAA".data
        = some ⟨"Global".data, [("I".data, PyFloat.finite 5)]⟩ := by
  constructor
  · decide
  · decide

/-- C3 (amended): in `extract_all_countries_csv_data` and
`extract_all_sanitized_countries` a record whose `location` is in the
enumerated regional-aggregate set, or whose `location_code` is not exactly
three alphabetic characters, contributes nothing (the step leaves the table
unchanged); `parse_who_csv` instead discards exactly the records whose
stripped `location_code` is in `{AFR, AMR, EMR, EUR, SEAR, WPR, GLOBAL}` or
is not three alphabetic characters. -/
theorem claim_C3_regional_and_code_filters (cd : AList CountryOut) (r : Row) :
    ((r.location ∈ regionalAggregates ∨ passesCodeGate r.locationCode = false) →
      allStep cd r = cd ∧ sanStep cd r = cd)
    ∧ ((pyStrip r.locationCode ∈ regionCodes
        ∨ passesCodeGate (pyStrip r.locationCode) = false) →
      parseWhoStep cd r = cd) := by
  constructor
  · rintro (h | h)
    · constructor
      · unfold allStep
        rw [if_pos h]
      · unfold sanStep
        rw [if_pos h]
    · constructor
      · unfold allStep
        by_cases hreg : r.location ∈ regionalAggregates
        · rw [if_pos hreg]
        · rw [if_neg hreg, if_neg (by rw [h]; exact Bool.false_ne_true)]
      · unfold sanStep
        by_cases hreg : r.location ∈ regionalAggregates
        · rw [if_pos hreg]
        · rw [if_neg hreg, if_neg (by rw [h]; exact Bool.false_ne_true)]
  · rintro (h | h)
    · unfold parseWhoStep
      dsimp only
      rw [if_pos h]
    · unfold parseWhoStep
      dsimp only
      by_cases hrc : pyStrip r.locationCode ∈ regionCodes
      · rw [if_pos hrc]
      · rw [if_neg hrc, if_pos (by rw [h]; rfl)]

/-- C3 (witness): a record with a four-letter code is ignored by all three
steps. -/
theorem claim_C3_witness :
    (passesCodeGate (pyStrip "ABCD".data) = false)
    ∧ allStep [] ⟨"L".data, "ABCD".data, "I".data, "".data, "5".data⟩ = []
    ∧ sanStep [] ⟨"L".data, "ABCD".data, "I".data, "".data, "5".data⟩ = []
    ∧ parseWhoStep [] ⟨"L".data, "ABCD".data, "I".data, "".data, "5".data⟩ = [] := by
  have hgate : passesCodeGate ("ABCD".data) = false := by decide
  have hgate' : passesCodeGate (pyStrip "ABCD".data) = false := by decide
  have h1 := (claim_C3_regional_and_code_filters []
    ⟨"L".data, "ABCD".data, "I".data, "".data, "5".data⟩).1 (Or.inr hgate)
  have h2 := (claim_C3_regional_and_code_filters []
    ⟨"L".data, "ABCD".data, "I".data, "".data, "5".data⟩).2 (Or.inr hgate')
  exact ⟨hgate', h1.1, h1.2, h2⟩

/-! ## Claim C10 -/

theorem mem_of_alookup {α : Type} {l : AList α} {k : Str} {v : α}
    (h : alookup l k = some v) : (k, v) ∈ l := by
  unfold alookup at h
  cases hf : l.find? (fun p => p.1 == k) with
  | none => rw [hf] at h; exact absurd h (by simp)
  | some q =>
    rw [hf] at h
    have hq := List.find?_some hf
    have hmem := List.mem_of_find?_eq_some hf
    obtain ⟨q1, q2⟩ := q
    simp only [Option.map_some', Option.some.injEq] at h
    simp only [beq_iff_eq] at hq
    rw [← hq, ← h]
    exact hmem

/-- C10: every calibrated health score stored by
`simulate_health_score_calculation` (one per country with at least one valid
indicator) lies in the closed interval `[0, 100]`, because the score is
clamped by `max(0, min(100, ...))` before being stored. -/
theorem claim_C10_calibrated_score_range (d : AList CIn) (code : Str)
    (e : ScoreEntry) (h : alookup (simulate_health_score_calculation d) code = some e) :
    0 ≤ e.calibratedScore ∧ e.calibratedScore ≤ 100 := by
  unfold simulate_health_score_calculation at h
  have hmem := mem_of_alookup h
  obtain ⟨p, _, hf⟩ := List.mem_filterMap.mp hmem
  dsimp only at hf
  by_cases hv : 0 < (countryScore d (allIndicatorsOf d)
      (1 / ((allIndicatorsOf d).length : ℚ)) p.2).2
  · rw [if_pos hv] at hf
    have hpair := Option.some.inj hf
    have h2 := congrArg Prod.snd hpair
    dsimp only at h2
    rw [← h2]
    constructor
    · exact le_max_left _ _
    · exact max_le (by norm_num) (min_le_left _ _)
  · rw [if_neg hv] at hf
    exact absurd hf (by simp)

/-- C10 (witness): on `sampleCIn` the country `AAA` has one valid indicator
and its stored calibrated score (0) lies in `[0, 100]`. -/
theorem claim_C10_witness :
    alookup (simulate_health_score_calculation sampleCIn) "AAA".data = some sampleScore
    ∧ 0 ≤ sampleScore.calibratedScore ∧ sampleScore.calibratedScore ≤ 100 := by
  have h : alookup (simulate_health_score_calculation sampleCIn) "AAA".data
      = some sampleScore := by with_unfolding_all decide
  exact ⟨h, claim_C10_calibrated_score_range sampleCIn "AAA".data sampleScore h⟩

/-! ## Claim C7 -/

/-- C7: when the regex finds the countries block and the matched text
occurs exactly once in the component text, the splice rewrites the text to
`pre ++ prefix ++ "\n" ++ code ++ suffix ++ suf`: everything outside the
matched block (`pre` and `suf`) is preserved verbatim, and only the block's
contents are replaced by the newly generated country entries. -/
theorem claim_C7_splice_preserves_frame (content code pre inner suf : Str)
    (h1 : findBlockSplit content = some (pre, inner, suf))
    (h2 : countOccur (blockOpen ++ inner ++ blockClose) content = 1) :
    content = pre ++ blockOpen ++ inner ++ blockClose ++ suf
    ∧ spliceCountries content code =
        some (pre ++ blockOpen ++ ('\n' :: code) ++ blockClose ++ suf) := by
  unfold findBlockSplit at h1
  cases hs1 : splitFirst blockOpen content with
  | none => rw [hs1] at h1; exact absurd h1 (by simp)
  | some pr1 =>
    rw [hs1] at h1
    obtain ⟨pre₁, rest⟩ := pr1
    dsimp only at h1
    cases hs2 : splitFirst blockClose rest with
    | none => rw [hs2] at h1; exact absurd h1 (by simp)
    | some pr2 =>
      rw [hs2] at h1
      obtain ⟨inner₁, suf₁⟩ := pr2
      dsimp only at h1
      simp only [Option.some.injEq, Prod.mk.injEq] at h1
      obtain ⟨he1, he2, he3⟩ := h1
      subst he1; subst he2; subst he3
      have hc1 : content = pre₁ ++ blockOpen ++ rest := splitFirst_eq_append hs1
      have hc2 : rest = inner₁ ++ blockClose ++ suf₁ := splitFirst_eq_append hs2
      have hcontent : content = pre₁ ++ (blockOpen ++ inner₁ ++ blockClose) ++ suf₁ := by
        rw [hc1, hc2]
        simp [List.append_assoc]
      have hne : blockOpen ++ inner₁ ++ blockClose ≠ [] := by
        intro hx
        have : blockOpen = [] := (List.append_eq_nil.mp
          ((List.append_eq_nil.mp hx).1)).1
        exact absurd this (by decide)
      have hex := splitFirst_isSome_of_append
        (blockOpen ++ inner₁ ++ blockClose) pre₁ suf₁
      rw [← hcontent] at hex
      obtain ⟨⟨pre₂, suf₂⟩, hsg⟩ := Option.isSome_iff_exists.mp hex
      have hcg : content = pre₂ ++ (blockOpen ++ inner₁ ++ blockClose) ++ suf₂ :=
        splitFirst_eq_append hsg
      have hle1 : pre₂.length ≤ pre₁.length :=
        splitFirst_leftmost hsg pre₁ suf₁ hcontent
      have hle2 : pre₁.length ≤ pre₂.length := by
        apply splitFirst_leftmost hs1 pre₂ (inner₁ ++ blockClose ++ suf₂)
        rw [hcg]
        simp [List.append_assoc]
      have hlen : pre₁.length = pre₂.length := le_antisymm hle2 hle1
      have hassoc : pre₁ ++ ((blockOpen ++ inner₁ ++ blockClose) ++ suf₁)
          = pre₂ ++ ((blockOpen ++ inner₁ ++ blockClose) ++ suf₂) := by
        have h' := hcontent.symm.trans hcg
        simp only [List.append_assoc] at h' ⊢
        exact h'
      have hinj := List.append_inj hassoc hlen
      obtain ⟨hpre, htail⟩ := hinj
      have hsuf : suf₁ = suf₂ := List.append_cancel_left htail
      subst hpre
      subst hsuf
      have hcnt := countOccur_split hne hsg
      rw [h2] at hcnt
      have h0 : countOccur (blockOpen ++ inner₁ ++ blockClose) suf₁ = 0 := by omega
      have hrepl := @pyReplace_of_unique (blockOpen ++ inner₁ ++ blockClose)
        (newCountriesContent code) content pre₁ suf₁ hne hsg h0
      constructor
      · rw [hcontent]
        simp [List.append_assoc]
      · unfold spliceCountries
        rw [show findBlockSplit content = some (pre₁, inner₁, suf₁) by
          unfold findBlockSplit
          rw [hs1]
          dsimp only
          rw [hs2]]
        dsimp only
        rw [hrepl]
        unfold newCountriesContent
        simp [List.append_assoc]

/-- C7 (witness): a concrete component text with one countries block around
which the surrounding text (`X` before, `Y` after) survives the splice. -/
theorem claim_C7_witness :
    findBlockSplit spliceSampleContent = some ("X".data, "A".data, "Y".data)
    ∧ countOccur (blockOpen ++ "A".data ++ blockClose) spliceSampleContent = 1
    ∧ (spliceSampleContent
        = "X".data ++ blockOpen ++ "A".data ++ blockClose ++ "Y".data
      ∧ spliceCountries spliceSampleContent "Z".data =
          some ("X".data ++ blockOpen ++ ('\n' :: "Z".data) ++ blockClose ++ "Y".data)) := by
  have hsg : splitFirst (blockOpen ++ "A".data ++ blockClose) spliceSampleContent
      = some ("X".data, "Y".data) := by decide
  have h0 : countOccur (blockOpen ++ "A".data ++ blockClose) "Y".data = 0 := by
    have hnp : ¬ (blockOpen ++ "A".data ++ blockClose).isPrefixOf ('Y' :: []) = true := by
      decide
    rw [show ("Y".data : Str) = 'Y' :: [] from rfl, countOccur_cons_neg hnp, countOccur]
  have hc : countOccur (blockOpen ++ "A".data ++ blockClose) spliceSampleContent = 1 := by
    rw [countOccur_split (by decide) hsg, h0]
  have hf : findBlockSplit spliceSampleContent = some ("X".data, "A".data, "Y".data) := by
    decide
  exact ⟨hf, hc, claim_C7_splice_preserves_frame spliceSampleContent "Z".data
    "X".data "A".data "Y".data hf hc⟩

end WHOScripts
